import Mathlib

/-!
Verification of the Tower-Defense Python backend
(`Assets/Scripts/Python/project/`).

This file gives a shallow embedding of the components the checked claims
are about:

* `GridSystem` — occupancy grid (`models/finger_pointer.py`, class
  `GridSystem`): construction from a grayscale mask via area-averaged
  downsampling, pixel→cell lookup, cell→center-pixel lookup, occupancy
  query.
* `process_frame` — the gesture dwell-confirmation engine
  (`models/finger_pointer.py`, class `FingerPositionDetector`).
* the `from config.settings import …` name resolution of
  `services/multiplayer/game_server.py` against `config/settings.py`.
* a command-granularity step relation for `GameServer.handle_client`
  (`services/multiplayer/game_server.py`) tracking which camera sessions
  are open.
* `astar` / `handle_astar_from_mask` (`utils/pathfinding.py`) and the
  path stage of `GameServer.process_sam`.

Machine integers of the source are embedded as `ℕ`/`ℤ`; Python floats
carrying wall-clock timestamps are embedded as `ℚ`; fallible operations
return `Option`.  External collaborators (OpenCV, MediaPipe) are
embedded at their call boundary: a camera frame's hand-detection result
becomes an abstract input record, and `cv2.resize(..., INTER_AREA)` is
modelled as exact area-weighted averaging followed by rounding.
-/

/-! ## Masks

A grayscale image (also used, with values 0 and 1, as the binarized
obstacle mask consumed by `astar`).  `val y x` is the pixel value at row
`y`, column `x`. -/

structure Mask where
  h : ℕ
  w : ℕ
  val : ℕ → ℕ → ℕ

/-! ## GridSystem (`models/finger_pointer.py`, lines 8–141) -/

structure GridSystem where
  grid_size : ℕ
  width : ℕ
  height : ℕ
  grid_matrix : ℕ → ℕ → Bool

/-- `self.cols = width // grid_size` (line 23). -/
def GridSystem.cols (g : GridSystem) : ℕ := g.width / g.grid_size

/-- `self.rows = height // grid_size` (line 24). -/
def GridSystem.rows (g : GridSystem) : ℕ := g.height / g.grid_size

/-- Lower bound of the footprint of output index `idx` when an axis of
`n` input pixels is resized to `outN` output pixels:  `idx * n / outN`. -/
def footLo (n outN idx : ℕ) : ℚ := (idx : ℚ) * n / outN

/-- Upper bound of the footprint of output index `idx`. -/
def footHi (n outN idx : ℕ) : ℚ := ((idx : ℚ) + 1) * n / outN

/-- Length of the overlap of the unit pixel interval `[i, i+1]` with the
footprint interval `[a, b]`. -/
def overlapWeight (a b : ℚ) (i : ℕ) : ℚ := max 0 (min ((i : ℚ) + 1) b - max (i : ℚ) a)

/-- Area-weighted sum of mask values over the footprint of output cell
`(r, c)` when `m` is resized to `rows × cols`. -/
def areaSum (m : Mask) (rows cols r c : ℕ) : ℚ :=
  ∑ y in Finset.range m.h, ∑ x in Finset.range m.w,
    overlapWeight (footLo m.h rows r) (footHi m.h rows r) y *
      overlapWeight (footLo m.w cols c) (footHi m.w cols c) x * (m.val y x : ℚ)

/-- Total footprint area of one output cell: `(h/rows) * (w/cols)`. -/
def cellArea (m : Mask) (rows cols : ℕ) : ℚ :=
  ((m.h : ℚ) / rows) * ((m.w : ℚ) / cols)

/-- Modelled value of `cv2.resize(mask, (cols, rows), INTER_AREA)` at
`(r, c)`: the area-weighted average over the cell's footprint, rounded
to the nearest integer (uint8 output). `cv2.resize` is an external
collaborator; this is its documented area-averaging semantics. -/
def interAreaValue (m : Mask) (rows cols r c : ℕ) : ℤ :=
  ⌊areaSum m rows cols r c / cellArea m rows cols + 1 / 2⌋

/-- `_update_grid_from_mask` (lines 95–104): resize the mask to
`(cols, rows)` with `INTER_AREA`, then `grid_matrix = small_mask < 128`. -/
def update_grid_from_mask (m : Mask) (grid_size : ℕ) : GridSystem :=
  { grid_size := grid_size
    width := m.w
    height := m.h
    grid_matrix := fun r c =>
      decide (interAreaValue m (m.h / grid_size) (m.w / grid_size) r c < 128) }

/-- `get_grid_cell` (lines 120–128).  Inputs are pixel coordinates
(possibly out of the image); the result is `none` for any pixel outside
the image bounds or outside the covered cell range. -/
def GridSystem.get_grid_cell (g : GridSystem) (x y : ℤ) : Option (ℕ × ℕ) :=
  if 0 ≤ x ∧ x < (g.width : ℤ) ∧ 0 ≤ y ∧ y < (g.height : ℤ) then
    let col := x.toNat / g.grid_size
    let row := y.toNat / g.grid_size
    if row < g.rows ∧ col < g.cols then some (row, col) else none
  else none

/-- `is_cell_occupied` (lines 130–134). -/
def GridSystem.is_cell_occupied (g : GridSystem) (row col : ℕ) : Bool :=
  if row < g.rows ∧ col < g.cols then g.grid_matrix row col else false

/-- `get_cell_center` (lines 136–141), via the precalculated
`cell_coords` (lines 106–118): center `(cx, cy)` with
`cx = int((col + 0.5) * grid_size)`, exact in ℕ as
`((2*col+1) * grid_size) / 2`. -/
def GridSystem.get_cell_center (g : GridSystem) (row col : ℕ) : Option (ℤ × ℤ) :=
  if row < g.rows ∧ col < g.cols then
    some ((((2 * col + 1) * g.grid_size / 2 : ℕ) : ℤ),
      (((2 * row + 1) * g.grid_size / 2 : ℕ) : ℤ))
  else none

/-! ## FingerPositionDetector (`models/finger_pointer.py`, lines 189–441)

The MediaPipe hand-landmark provider is an external collaborator; a
frame's detection result is embedded as `Option HandInput`: `none` when
`results.multi_hand_landmarks` is empty, otherwise the fingertip pixel
`(x, y)` (already scaled to image coordinates, line 286–287), the depth
value `z` (line 290–293, `0` when no depth frame), and the pointing
pose bit `index_finger_tip.y < index_finger_mcp.y` (line 298). -/

structure Pos3 where
  x : ℤ
  y : ℤ
  z : ℤ
deriving DecidableEq, Repr

structure HandInput where
  x : ℤ
  y : ℤ
  z : ℤ
  indexExtended : Bool
deriving DecidableEq, Repr

structure DetectorState where
  last_position : Option Pos3
  start_time : Option ℚ
  position_confirmed : Bool
  position_buffer : List Pos3
  selected_point : Option Pos3
  selected_cell : Option (ℕ × ℕ)
  is_pointing : Bool
  current_cell : Option (ℕ × ℕ)
deriving DecidableEq, Repr

/-- `self.confirmation_duration = 1.0` (line 211), in seconds. -/
def confirmation_duration : ℚ := 1

/-- `self.stability_threshold = 10` (line 212). -/
def stability_threshold : ℤ := 10

/-- `self.buffer_size = 3` (line 217). -/
def buffer_size : ℕ := 3

/-- Detector state as produced by `__init__` (lines 207–226). -/
def initDetectorState : DetectorState :=
  { last_position := none
    start_time := none
    position_confirmed := false
    position_buffer := []
    selected_point := none
    selected_cell := none
    is_pointing := false
    current_cell := none }

/-- `reset` (lines 434–441). -/
def detector_reset (s : DetectorState) : DetectorState :=
  { s with
    last_position := none
    start_time := none
    position_confirmed := false
    selected_point := none
    selected_cell := none
    position_buffer := [] }

def sumBy (l : List Pos3) (f : Pos3 → ℤ) : ℤ := (l.map f).sum

/-- `np.var xs < bound` for the coordinate selected by `f`, as an exact
integer test: with `n = |l|`, `var = (n·Σx² − (Σx)²) / n²`, so
`var < bound ↔ n·Σx² − (Σx)² < bound·n²`. -/
def varianceLt (l : List Pos3) (f : Pos3 → ℤ) (bound : ℤ) : Bool :=
  let n : ℤ := l.length
  let s := sumBy l f
  let s2 := sumBy l fun p => f p * f p
  decide (n * s2 - s * s < bound * n * n)

/-- `is_position_stable` (lines 403–432).  Returns the stability verdict
together with the updated `position_buffer` (the method mutates the
buffer: it returns before appending when either position is `None`;
otherwise it appends and pops the front when over `buffer_size`).
Variance is computed over x and y only (`positions[:, :2]`) and compared
with `stability_threshold**2`. -/
def is_position_stable (last current : Option Pos3) (buffer : List Pos3) :
    Bool × List Pos3 :=
  match last, current with
  | none, _ => (false, buffer)
  | some _, none => (false, buffer)
  | some _, some p =>
    let buf0 := buffer ++ [p]
    let buf := if buffer_size < buf0.length then buf0.drop 1 else buf0
    if buf.length < 2 then (false, buf)
    else
      (varianceLt buf (fun q => q.x) (stability_threshold * stability_threshold) &&
        varianceLt buf (fun q => q.y) (stability_threshold * stability_threshold), buf)

structure FrameResult where
  state : DetectorState
  current_position : Option Pos3
  is_confirmed : Bool
  selected_cell : Option (ℕ × ℕ)
deriving DecidableEq, Repr

/-- `process_frame` (lines 230–401), restricted to its state and outputs
(drawing calls write only to the output image).  `now` is the value of
`time.time()` during the frame.

With a hand detected (lines 264–360): the pointing bit and the cell
under the fingertip are recomputed and stored unconditionally (lines
298–305); `cell_is_valid` is `cell and not is_cell_occupied(*cell)`
(line 307); `is_position_stable` is called unconditionally (line 318);
when pointing ∧ valid ∧ stable, the dwell timer starts if unset and a
confirmation fires once `elapsed >= confirmation_duration` (line 342),
otherwise the timer and the confirmed flag are cleared (lines 357–360).
After a confirmation the engine immediately clears the timer and the
flag again (lines 388–390).  With no hand (lines 361–364) only the
timer and the confirmed flag are cleared, and `last_position` becomes
`None` (line 393). -/
def process_frame (g : GridSystem) (s : DetectorState) (hand : Option HandInput)
    (now : ℚ) : FrameResult :=
  match hand with
  | none =>
    { state := { s with
        start_time := none
        position_confirmed := false
        last_position := none },
      current_position := none,
      is_confirmed := false,
      selected_cell := none }
  | some hd =>
    let p : Pos3 := ⟨hd.x, hd.y, hd.z⟩
    let pointing := hd.indexExtended
    let cell := g.get_grid_cell hd.x hd.y
    let cell_is_valid :=
      match cell with
      | some rc => !(g.is_cell_occupied rc.1 rc.2)
      | none => false
    let stab := is_position_stable s.last_position (some p) s.position_buffer
    if pointing && cell_is_valid && stab.1 then
      let start := s.start_time.getD now
      if decide (confirmation_duration ≤ now - start) && !s.position_confirmed then
        { state := { s with
            last_position := some p
            start_time := none
            position_confirmed := false
            position_buffer := stab.2
            selected_point := some p
            selected_cell := cell
            is_pointing := pointing
            current_cell := cell },
          current_position := some p,
          is_confirmed := true,
          selected_cell := cell }
      else
        { state := { s with
            last_position := some p
            start_time := some start
            position_buffer := stab.2
            is_pointing := pointing
            current_cell := cell },
          current_position := some p,
          is_confirmed := false,
          selected_cell := none }
    else
      { state := { s with
          last_position := some p
          start_time := none
          position_confirmed := false
          position_buffer := stab.2
          is_pointing := pointing
          current_cell := cell },
        current_position := some p,
        is_confirmed := false,
        selected_cell := none }

/-- Run the detector over a list of frames (hand input paired with its
timestamp), returning the final state and the per-frame results. -/
def run_detector (g : GridSystem) (s : DetectorState) :
    List (Option HandInput × ℚ) → DetectorState × List FrameResult
  | [] => (s, [])
  | f :: fs =>
    let r := process_frame g s f.1 f.2
    let rest := run_detector g r.state fs
    (rest.1, r :: rest.2)

/-! ## `config/settings.py` and the `game_server.py` import list

`game_server.py` (lines 17–23) performs
`from config.settings import (…)`; Python binds the requested names in
order and raises `ImportError` at the first name the settings module
does not define. -/

/-- All module-level names defined by `config/settings.py`. -/
def settingsDefinedNames : List String :=
  ["WEBSOCKET_HOST", "WEBSOCKET_PORT", "FINGER_TRACKING_PORT",
   "MENU_GESTURE_PORT", "CAMERA_INDEX", "CAMERA_WIDTH_PREFERRED",
   "CAMERA_HEIGHT_PREFERRED", "CAMERA_FPS", "FINGER_CAMERA_INDEX",
   "FINGER_CAMERA_WIDTH_PREFERRED", "FINGER_CAMERA_HEIGHT_PREFERRED",
   "FINGER_CAMERA_FPS", "FINGER_TRANSMISSION_FPS",
   "AUTO_DETECT_CAMERA_RESOLUTION", "MAX_RESOLUTION_WIDTH",
   "MAX_RESOLUTION_HEIGHT", "MIN_RESOLUTION_WIDTH", "MIN_RESOLUTION_HEIGHT",
   "CAMERA_WIDTH", "CAMERA_HEIGHT", "FINGER_CAMERA_WIDTH",
   "FINGER_CAMERA_HEIGHT", "TRANSMISSION_FPS", "JPEG_QUALITY",
   "MODEL_TYPE", "MODEL_CHECKPOINT", "POINTS_PER_SIDE", "PRED_IOU_THRESH",
   "STABILITY_SCORE_THRESH", "CROP_N_LAYERS",
   "CROP_N_POINTS_DOWNSCALE_FACTOR", "MIN_MASK_REGION_AREA",
   "DEBUG_ENABLED", "DEBUG_INPUT_IMAGE", "DEBUG_MASK_FINAL",
   "MESSAGE_TYPE_CAMERA_FRAME", "MESSAGE_TYPE_MASK", "MESSAGE_TYPE_PATH",
   "MESSAGE_TYPE_FINGER_COUNT", "MESSAGE_TYPE_GRID_POSITION",
   "MESSAGE_TYPE_GRID_CONFIRMATION", "MESSAGE_TYPE_SERVER_STATUS",
   "MESSAGE_TYPE_SWITCH_CAMERA", "MESSAGE_TYPE_CAMERA_LIST",
   "MESSAGE_TYPE_PROGRESS_UPDATE", "MESSAGE_TYPE_CAMERA_INFO",
   "MIN_BLACK_RATIO", "MAX_BLACK_RATIO"]

/-- The `MESSAGE_TYPE_*` enumeration of `config/settings.py`
(lines 60–71), name and value. -/
def settingsMessageTypes : List (String × ℕ) :=
  [("MESSAGE_TYPE_CAMERA_FRAME", 1), ("MESSAGE_TYPE_MASK", 3),
   ("MESSAGE_TYPE_PATH", 4), ("MESSAGE_TYPE_FINGER_COUNT", 5),
   ("MESSAGE_TYPE_GRID_POSITION", 6), ("MESSAGE_TYPE_GRID_CONFIRMATION", 7),
   ("MESSAGE_TYPE_SERVER_STATUS", 8), ("MESSAGE_TYPE_SWITCH_CAMERA", 9),
   ("MESSAGE_TYPE_CAMERA_LIST", 10), ("MESSAGE_TYPE_PROGRESS_UPDATE", 11),
   ("MESSAGE_TYPE_CAMERA_INFO", 12)]

/-- The names `game_server.py` lines 17–23 request from
`config.settings`, in source order. -/
def gameServerSettingsImports : List String :=
  ["WEBSOCKET_HOST", "WEBSOCKET_PORT", "MESSAGE_TYPE_CAMERA_FRAME",
   "MESSAGE_TYPE_MASK", "MESSAGE_TYPE_PATH", "MESSAGE_TYPE_GRID_POSITION",
   "CAMERA_INDEX", "CAMERA_WIDTH_PREFERRED", "CAMERA_HEIGHT_PREFERRED",
   "CAMERA_FPS", "MESSAGE_TYPE_GRID_CONFIRMATION", "TRANSMISSION_FPS",
   "MESSAGE_TYPE_PROGRESS_UPDATE", "MESSAGE_TYPE_CAMERA_INFO",
   "MESSAGE_TYPE_ERROR"]

/-- Python `from M import a, b, …` name resolution: returns the bound
names, or the first requested name `M` does not define (the name of the
`ImportError`). -/
def resolveFromImport (defined : List String) :
    List String → Except String (List String)
  | [] => Except.ok []
  | n :: ns =>
    if n ∈ defined then
      match resolveFromImport defined ns with
      | Except.ok bound => Except.ok (n :: bound)
      | Except.error e => Except.error e
    else Except.error n

/-! ## GameServer command handling (`services/multiplayer/game_server.py`)

A command-granularity step relation for one client connection of
`GameServer.handle_client` (lines 56–128), tracking which camera
sessions are open.  `planningOpen` is
`planning_camera_manager.is_running`, `framesTask` the planning frame
streaming task, `combatActive` the `combat_mode_active` flag, and
`combatTask` the `handle_combat_mode` task (lines 297–377), which owns
the combat `CameraManager` — the task opens it on entry and closes it
in its `finally` block.  Task cancellation is cooperative; the model
lets a cancelled task finish its cleanup before the next command is
processed, and lets a created task run up to its camera start.  Each
step also reports the peak number of simultaneously open camera
sessions observed during the step. -/

inductive GameCmd
  | startCamera
  | stopCamera
  | processSam
  | startCombat
  | stopCombat
deriving DecidableEq, Repr

structure ServerConnState where
  planningOpen : Bool
  framesTask : Bool
  combatActive : Bool
  combatTask : Bool
deriving DecidableEq, Repr

def initServerConnState : ServerConnState :=
  { planningOpen := false, framesTask := false,
    combatActive := false, combatTask := false }

/-- Number of camera sessions currently open. -/
def openSessions (s : ServerConnState) : ℕ :=
  (if s.planningOpen then 1 else 0) + (if s.combatTask then 1 else 0)

/-- One command of `handle_client` (lines 71–117).  `START_CAMERA` and
`STOP_CAMERA` are ignored while combat is active; `PROCESS_SAM` has no
such guard and `process_sam` (lines 165–295) starts the planning camera
if it is not running (step 1) and always stops it in its `finally`
block; `START_COMBAT` first cancels the frame stream and stops the
planning camera, then creates the combat task (unless one is running);
`STOP_COMBAT` clears the flag and cancels the combat task. -/
def serverStep (s : ServerConnState) : GameCmd → ServerConnState × ℕ
  | GameCmd.startCamera =>
    if !s.combatActive then
      let s2 := { s with planningOpen := true, framesTask := true }
      (s2, max (openSessions s) (openSessions s2))
    else (s, openSessions s)
  | GameCmd.stopCamera =>
    if !s.combatActive then
      ({ s with planningOpen := false, framesTask := false }, openSessions s)
    else (s, openSessions s)
  | GameCmd.processSam =>
    let during := 1 + (if s.combatTask then 1 else 0)
    ({ s with planningOpen := false, framesTask := false },
      max (openSessions s) during)
  | GameCmd.startCombat =>
    let s2 := { s with combatActive := true, framesTask := false,
                       planningOpen := false }
    let s3 := { s2 with combatTask := true }
    (s3, max (openSessions s) (max (openSessions s2) (openSessions s3)))
  | GameCmd.stopCombat =>
    ({ s with combatActive := false, combatTask := false }, openSessions s)

/-- The `finally` block of `handle_client` (lines 121–128): on
disconnect both tasks are cancelled (the combat task closes its camera
cooperatively) and the planning camera is stopped. -/
def serverDisconnect (s : ServerConnState) : ServerConnState × ℕ :=
  ({ s with planningOpen := false, framesTask := false, combatTask := false },
    openSessions s)

/-- Run a list of commands, returning the final state and the peak
session count observed anywhere in the run. -/
def serverRun (s : ServerConnState) : List GameCmd → ServerConnState × ℕ
  | [] => (s, openSessions s)
  | c :: cs =>
    let r := serverStep s c
    let rest := serverRun r.1 cs
    (rest.1, max r.2 rest.2)

/-- Peak session count over a whole connection: the commands, then the
transport-level disconnect. -/
def serverSession (cmds : List GameCmd) : ℕ :=
  let r := serverRun initServerConnState cmds
  max r.2 (serverDisconnect r.1).2

/-- `true` when no `PROCESS_SAM` command is issued at a point where
combat mode is active. -/
def noSamDuringCombat (s : ServerConnState) : List GameCmd → Bool
  | [] => true
  | c :: cs =>
    (c != GameCmd.processSam || !s.combatActive) &&
      noSamDuringCombat (serverStep s c).1 cs

/-! ## A* path planning (`utils/pathfinding.py`, lines 6–112)

`astar(mask, goal=None)` runs over a binary mask (0 = free, 1 =
obstacle).  The frontier is a `heapq` of `(priority, (y, x))` tuples;
`heappop` returns the least tuple under Python's lexicographic tuple
order, so the frontier is embedded as a bag from which the least entry
is removed (entries equal as tuples are indistinguishable, so which
occurrence is removed does not matter).  `came_from` and `cost_so_far`
are dicts, embedded as association lists where the most recent binding
shadows older ones.  The Python `while` loop terminates because each
re-push strictly decreases a key's cost; the embedding uses an explicit
fuel bound instead. -/

abbrev Node := ℕ × ℕ

/-- `heuristic(a, b)` (lines 12–13): Manhattan distance. -/
def heuristic (a b : Node) : ℕ :=
  ((a.1 : ℤ) - b.1).natAbs + ((a.2 : ℤ) - b.2).natAbs

/-- `neighbors(pos)` (lines 15–20): in-bounds 4-neighbours with
`mask == 0`, in source order up, down, left, right. -/
def nbrs (m : Mask) (p : Node) : List Node :=
  ([(-1, 0), (1, 0), (0, -1), (0, 1)] : List (ℤ × ℤ)).filterMap fun d =>
    let ny : ℤ := (p.1 : ℤ) + d.1
    let nx : ℤ := (p.2 : ℤ) + d.2
    if 0 ≤ ny ∧ ny < (m.h : ℤ) ∧ 0 ≤ nx ∧ nx < (m.w : ℤ) ∧
        m.val ny.toNat nx.toNat = 0 then
      some (ny.toNat, nx.toNat)
    else none

/-- First-match association-list lookup (Python dict read, where the
newest binding is consed in front). -/
def lookupA {β : Type} : List (Node × β) → Node → Option β
  | [], _ => none
  | e :: l, k => if e.1 = k then some e.2 else lookupA l k

/-- Python tuple order on heap entries `(priority, (y, x))`. -/
def entryLe (a b : ℕ × Node) : Bool :=
  decide (a.1 < b.1) ||
    (decide (a.1 = b.1) &&
      (decide (a.2.1 < b.2.1) ||
        (decide (a.2.1 = b.2.1) && decide (a.2.2 ≤ b.2.2))))

/-- Least entry of the frontier under `entryLe`. -/
def minEntry : List (ℕ × Node) → Option (ℕ × Node)
  | [] => none
  | e :: l => some (l.foldl (fun a b => if entryLe a b then a else b) e)

/-- `heapq.heappop`: remove and return the least entry. -/
def popMin (l : List (ℕ × Node)) : Option ((ℕ × Node) × List (ℕ × Node)) :=
  match minEntry l with
  | none => none
  | some e => some (e, l.erase e)

structure AState where
  frontier : List (ℕ × Node)
  came_from : List (Node × Option Node)
  cost_so_far : List (Node × ℕ)

/-- Body of the `for next in neighbors(current)` loop (lines 39–45).
`curCost` is `cost_so_far[current]`, constant across the loop because a
neighbour is never `current` itself. -/
def relaxNeighbor (goal cur : Node) (curCost : ℕ) (st : AState) (n : Node) :
    AState :=
  let new_cost := curCost + 1
  let better :=
    match lookupA st.cost_so_far n with
    | none => true
    | some c => decide (new_cost < c)
  if better then
    { frontier := st.frontier ++ [(new_cost + heuristic goal n, n)],
      came_from := (n, some cur) :: st.came_from,
      cost_so_far := (n, new_cost) :: st.cost_so_far }
  else st

/-- Expansion of a popped node.  `cost_so_far[current]` is always
present when a node is expanded (every frontier node's cost was recorded
when it was pushed; the start node's cost is recorded initially), so the
`getD 0` default is never taken. -/
def expand (m : Mask) (goal cur : Node) (st : AState) : AState :=
  let curCost := (lookupA st.cost_so_far cur).getD 0
  (nbrs m cur).foldl (relaxNeighbor goal cur curCost) st

/-- The `while frontier:` loop (lines 31–45): pop the least entry, stop
when it is the goal, otherwise expand it. -/
def astarLoop (m : Mask) (goal : Node) : ℕ → AState → AState
  | 0, st => st
  | fuel + 1, st =>
    match popMin st.frontier with
    | none => st
    | some (e, rest) =>
      if e.2 = goal then { st with frontier := rest }
      else astarLoop m goal fuel (expand m goal e.2 { st with frontier := rest })

/-- Path reconstruction loop (lines 48–52):
`while current and current in came_from: append (x, y); follow parent`. -/
def reconstructAux (came : List (Node × Option Node)) :
    ℕ → Option Node → List (ℕ × ℕ) → List (ℕ × ℕ)
  | 0, _, acc => acc
  | _ + 1, none, acc => acc
  | fuel + 1, some cur, acc =>
    match lookupA came cur with
    | none => acc
    | some par => reconstructAux came fuel par (acc ++ [(cur.2, cur.1)])

/-- Reconstruction followed by `path.reverse()` (line 53). -/
def reconstruct (came : List (Node × Option Node)) (goal : Node) :
    List (ℕ × ℕ) :=
  (reconstructAux came (came.length + 1) (some goal) []).reverse

/-- `start = (height // 2, width - 1)` (line 8). -/
def astarStart (m : Mask) : Node := (m.h / 2, m.w - 1)

/-- Default goal `(height // 2, 0)` (line 10). -/
def astarDefaultGoal (m : Mask) : Node := (m.h / 2, 0)

/-- Fuel bound for the embedded loop (an artifact of embedding the
Python `while`; large enough for every run this file reasons about). -/
def astarFuel (m : Mask) : ℕ := (m.h * m.w + 2) * (m.h * m.w + 2)

/-- `astar(mask, goal=None)` (lines 6–87), drawing elided. -/
def astar (m : Mask) (goalArg : Option Node) : List (ℕ × ℕ) :=
  let start := astarStart m
  let goal := goalArg.getD (astarDefaultGoal m)
  let st0 : AState :=
    { frontier := [(0, start)], came_from := [(start, none)],
      cost_so_far := [(start, 0)] }
  let stF := astarLoop m goal (astarFuel m) st0
  reconstruct stF.came_from goal

/-- `handle_astar_from_mask` (lines 89–112), modelled after image
decoding: `cv2.imdecode` and `cv2.threshold(…, 127, 1,
THRESH_BINARY_INV)` are external collaborators producing the binary
mask (obstacle = 1, free = 0); the function then runs `astar` and maps
an empty path (`if not path`) to `None`. -/
def handle_astar_from_mask (m : Mask) (goalArg : Option Node) :
    Option (List (ℕ × ℕ)) :=
  let path := astar m goalArg
  if path.isEmpty then none else some path

/-- Messages a client can receive from the path stage of
`process_sam`. -/
inductive SamMsg
  | progressUpdate (step : String) (progress : ℕ)
  | pathMsg (pts : List (ℕ × ℕ))
  | errorMsg (error : String) (code : String)
deriving DecidableEq, Repr

/-- Step 5 of `GameServer.process_sam` (`game_server.py`, lines
249–270): a progress update, then the A* computation; a `None` result or
a path of fewer than 2 points raises, is caught, and is surfaced as an
ERROR message with code `PATHFINDING_ERROR`; otherwise the path and the
closing progress updates are sent. -/
def processSamPathStage (m : Mask) (goalArg : Option Node) : List SamMsg :=
  SamMsg.progressUpdate "Calculando ruta optima..." 85 ::
    match handle_astar_from_mask m goalArg with
    | none => [SamMsg.errorMsg "Error al calcular ruta" "PATHFINDING_ERROR"]
    | some path =>
      if path.length < 2 then
        [SamMsg.errorMsg "Error al calcular ruta" "PATHFINDING_ERROR"]
      else
        [SamMsg.progressUpdate "Ruta calculada. Enviando..." 95,
         SamMsg.pathMsg path,
         SamMsg.progressUpdate "Procesamiento completado exitosamente!" 100]

/-- Reachability through free cells: the transitive closure of the
`neighbors` relation from the start cell.  "A 4-connected sequence of
unoccupied cells joins `start` to `n`". -/
inductive Reach (m : Mask) (start : Node) : Node → Prop
  | refl : Reach m start start
  | step {a b : Node} : Reach m start a → b ∈ nbrs m a → Reach m start b

/-! ## Concrete fixtures for witnesses and counterexamples -/

/-- A 640×480 grid (default `grid_size = 30`) with every cell free. -/
def gridAllFree : GridSystem :=
  { grid_size := 30, width := 640, height := 480, grid_matrix := fun _ _ => false }

/-- A 640×480 grid with every cell occupied. -/
def gridAllOcc : GridSystem :=
  { grid_size := 30, width := 640, height := 480, grid_matrix := fun _ _ => true }

/-- Fingertip at pixel (5, 5) — cell (0, 0) — not in pointing pose. -/
def handA : HandInput := { x := 5, y := 5, z := 0, indexExtended := false }

/-- Fingertip at pixel (35, 5) — cell (0, 1) — not in pointing pose. -/
def handB : HandInput := { x := 35, y := 5, z := 0, indexExtended := false }

/-- Fingertip at pixel (5, 5) — cell (0, 0) — in pointing pose. -/
def handP : HandInput := { x := 5, y := 5, z := 0, indexExtended := true }

/-- One frame timestamp per second. -/
def tlin : ℕ → ℚ := fun i => (i : ℚ)

/-- All-free 3×3 binary mask. -/
def maskFree3 : Mask := { h := 3, w := 3, val := fun _ _ => 0 }

/-- 3×3 binary mask whose goal cell (1, 0) is fully enclosed by
obstacle cells (0,0), (1,1), (2,0). -/
def maskEnclosed : Mask :=
  { h := 3, w := 3,
    val := fun y x => if (y = 0 ∧ x = 0) ∨ (y = 1 ∧ x = 1) ∨ (y = 2 ∧ x = 0)
      then 1 else 0 }

/-- The free cells reachable from the start of `maskEnclosed`. -/
def enclosedClosure : List Node := [(1, 2), (0, 2), (2, 2), (0, 1), (2, 1)]

/-- All-black 60×60 grayscale mask (entirely below the 128 threshold). -/
def maskZero : Mask := { h := 60, w := 60, val := fun _ _ => 0 }

/-! ## Auxiliary definitions used by the theorems -/

/-- Invariant of the per-connection server state: the planning camera is
never open while the combat task holds its camera, and a live combat
task implies combat mode is flagged active. -/
def ServerInv (s : ServerConnState) : Prop :=
  (s.planningOpen = true → s.combatTask = false) ∧
  (s.combatTask = true → s.combatActive = true)

instance (s : ServerConnState) : Decidable (ServerInv s) := by
  unfold ServerInv
  infer_instance

/-- A detector state mid-dwell over pixel (5, 5): the dwell timer
started at time 0 and the stability buffer already holds two samples. -/
def sDwell : DetectorState :=
  { initDetectorState with
    last_position := some ⟨5, 5, 0⟩
    start_time := some 0
    position_buffer := [⟨5, 5, 0⟩, ⟨5, 5, 0⟩] }

/-- `n` frames of the same hand input at timestamps `t 0, …, t (n-1)`. -/
def framesConst (hd : HandInput) (t : ℕ → ℚ) (n : ℕ) :
    List (Option HandInput × ℚ) :=
  (List.range n).map fun i => (some hd, t i)

/-- Like `framesConst`, but frame `j` carries `hdOff` instead. -/
def framesConstExcept (hd hdOff : HandInput) (j : ℕ) (t : ℕ → ℚ) (n : ℕ) :
    List (Option HandInput × ℚ) :=
  (List.range n).map fun i => (some (if i = j then hdOff else hd), t i)

/-- Number of frames of a run that reported a confirmation. -/
def countConfirms (rs : List FrameResult) : ℕ :=
  (rs.filter fun r => r.is_confirmed).length

/-- Invariant of the A* loop used for the no-path claim: every node in
the frontier and every key of `came_from` is reachable from the start
through free cells. -/
def ReachState (m : Mask) (start : Node) (st : AState) : Prop :=
  (∀ e ∈ st.frontier, Reach m start e.2) ∧
  (∀ p ∈ st.came_from, Reach m start p.1)

/-- The all-free binary mask of size `h` by `w`. -/
def emptyMask (h w : ℕ) : Mask := { h := h, w := w, val := fun _ _ => 0 }

/-- Trace invariant of the A* loop on the all-free mask after `k`
expansions: the frontier is junk entries of priority `w+1` plus one
last on-row entry for column `w-1-k`; costs and parents are recorded
exactly along the middle row. -/
def RowInv (h w k : ℕ) (st : AState) : Prop :=
  (∃ junk pr, st.frontier = junk ++ [(pr, ((h / 2 : ℕ), w - 1 - k))] ∧
    pr ≤ w - 1 ∧ ∀ e ∈ junk, e.1 = w + 1) ∧
  (∀ j ≤ k, lookupA st.cost_so_far ((h / 2 : ℕ), w - 1 - j) = some j) ∧
  (∀ p ∈ st.cost_so_far,
    (p.1.1 = h / 2 ∧ w - 1 - k ≤ p.1.2 ∧ p.1.2 ≤ w - 1) ∨
    (p.1.1 ≠ h / 2 ∧ w - k ≤ p.1.2 ∧ p.1.2 ≤ w - 1)) ∧
  (∀ j, 1 ≤ j → j ≤ k → lookupA st.came_from ((h / 2 : ℕ), w - 1 - j) =
    some (some ((h / 2 : ℕ), w - j))) ∧
  lookupA st.came_from ((h / 2 : ℕ), w - 1) = some none ∧
  k + 1 ≤ st.came_from.length

/-- The fingertip pixel of a hand input as a `Pos3` (depth included). -/
def posOf (hd : HandInput) : Pos3 := ⟨hd.x, hd.y, hd.z⟩

/-- A hand input in pointing pose over an in-range, unoccupied cell. -/
def GoodHand (g : GridSystem) (hd : HandInput) (rc : ℕ × ℕ) : Prop :=
  hd.indexExtended = true ∧ g.get_grid_cell hd.x hd.y = some rc ∧
  g.is_cell_occupied rc.1 rc.2 = false

instance (g : GridSystem) (hd : HandInput) (rc : ℕ × ℕ) :
    Decidable (GoodHand g hd rc) := by
  unfold GoodHand
  infer_instance

/-- The four detector-state fields `process_frame` actually reads. -/
def coreOf (s : DetectorState) : Option Pos3 × Option ℚ × Bool × List Pos3 :=
  (s.last_position, s.start_time, s.position_confirmed, s.position_buffer)

/-- `m` constant-hand frames at timestamps `t a, …, t (a + m - 1)`. -/
def framesFrom (hd : HandInput) (t : ℕ → ℚ) (a m : ℕ) :
    List (Option HandInput × ℚ) :=
  (List.range m).map fun i => (some hd, t (a + i))

/-! ## Theorems -/

/-- Helper: under `ServerInv` at most one camera session is open. -/
theorem openSessions_le_one {s : ServerConnState} (h : ServerInv s) :
    openSessions s ≤ 1 := by
  rcases s with ⟨p, f, a, ct⟩
  rcases h with ⟨h1, h2⟩
  cases p <;> cases ct <;> simp_all [openSessions]

/-- Helper: every command that is not `PROCESS_SAM`-during-combat keeps
the peak at one session and preserves `ServerInv`. -/
theorem serverStep_sound (s : ServerConnState) (c : GameCmd)
    (hInv : ServerInv s)
    (hguard : c = GameCmd.processSam → s.combatActive = false) :
    (serverStep s c).2 ≤ 1 ∧ ServerInv (serverStep s c).1 := by
  rcases s with ⟨p, f, a, ct⟩
  revert hInv hguard
  cases p <;> cases f <;> cases a <;> cases ct <;> cases c <;> decide

/-- Helper: the command loop never exceeds one open session on
`PROCESS_SAM`-free-during-combat traces. -/
theorem serverRun_sound (cmds : List GameCmd) :
    ∀ s : ServerConnState, ServerInv s → noSamDuringCombat s cmds = true →
    (serverRun s cmds).2 ≤ 1 ∧ ServerInv (serverRun s cmds).1 := by
  induction cmds with
  | nil =>
    intro s hInv _
    exact ⟨openSessions_le_one hInv, hInv⟩
  | cons c cs ih =>
    intro s hInv hns
    simp only [noSamDuringCombat, Bool.and_eq_true] at hns
    have hguard : c = GameCmd.processSam → s.combatActive = false := by
      intro hc
      subst hc
      simpa using hns.1
    have hstep := serverStep_sound s c hInv hguard
    have hrec := ih (serverStep s c).1 hstep.2 hns.2
    simp only [serverRun]
    exact ⟨max_le hstep.1 hrec.1, hrec.2⟩

/-- C1 (corrected): the claimed invariant fails as stated — issuing
`PROCESS_SAM` while combat mode is active starts the planning camera
while the combat task still holds its own camera, so two camera
sessions are open simultaneously.  Concretely, after
`START_COMBAT; PROCESS_SAM` the peak number of simultaneously open
sessions is 2. -/
theorem C1_counterexample_sam_during_combat :
    serverSession [GameCmd.startCombat, GameCmd.processSam] = 2 := by decide

/-- C1 (amended): for every command sequence in which `PROCESS_SAM` is
never issued while combat mode is active, at no reachable point of the
command-handling step relation (including teardown on disconnect) are
two camera sessions open simultaneously: the peak open-session count of
the whole connection is at most one. -/
theorem C1_single_camera_when_no_sam_during_combat (cmds : List GameCmd)
    (h : noSamDuringCombat initServerConnState cmds = true) :
    serverSession cmds ≤ 1 := by
  have hrun := serverRun_sound cmds initServerConnState (by decide) h
  simp only [serverSession, serverDisconnect]
  exact max_le hrun.1 (openSessions_le_one hrun.2)

/-- Witness for C1: a five-command sequence exercising both cameras
satisfies the hypothesis and keeps the peak at one session. -/
theorem C1_witness :
    noSamDuringCombat initServerConnState
      [GameCmd.startCamera, GameCmd.stopCamera, GameCmd.startCombat,
        GameCmd.stopCombat, GameCmd.startCamera] = true ∧
    serverSession
      [GameCmd.startCamera, GameCmd.stopCamera, GameCmd.startCombat,
        GameCmd.stopCombat, GameCmd.startCamera] ≤ 1 :=
  ⟨by decide, C1_single_camera_when_no_sam_during_combat _ (by decide)⟩

/-- Helper: a genuine confirmation — from the mid-dwell state `sDwell`,
a pointing frame at time 1 (one second after the dwell started) over
the free cell (0, 0) confirms. -/
theorem confirm_example :
    (process_frame gridAllFree sDwell (some handP) 1).is_confirmed = true := by
  norm_num [process_frame, is_position_stable, varianceLt, sumBy, sDwell,
    gridAllFree, handP, initDetectorState, GridSystem.get_grid_cell,
    GridSystem.is_cell_occupied, GridSystem.rows, GridSystem.cols,
    buffer_size, stability_threshold, confirmation_duration]
  decide

/-- C3: whenever `process_frame` reports a confirmation, the selected
cell is unoccupied in the grid at the frame of confirmation; and a
frame that observes the pointer over an occupied cell never confirms
and cancels any in-progress dwell (the timer is `None` afterwards). -/
theorem C3_confirmed_cell_unoccupied (g : GridSystem) (s : DetectorState)
    (hand : Option HandInput) (now : ℚ) :
    ((process_frame g s hand now).is_confirmed = true →
      ∃ rc, (process_frame g s hand now).selected_cell = some rc ∧
        g.is_cell_occupied rc.1 rc.2 = false) ∧
    (∀ hd rc, hand = some hd → g.get_grid_cell hd.x hd.y = some rc →
      g.is_cell_occupied rc.1 rc.2 = true →
      (process_frame g s hand now).is_confirmed = false ∧
      (process_frame g s hand now).state.start_time = none) := by
  constructor
  · intro hconf
    cases hand with
    | none => simp [process_frame] at hconf
    | some hd =>
      rcases hcell : g.get_grid_cell hd.x hd.y with _ | rc
      · simp only [process_frame, hcell] at hconf
        split at hconf
        · rename_i hcond
          simp at hcond
        · simp at hconf
      · refine ⟨rc, ?_, ?_⟩
        · simp only [process_frame, hcell] at hconf ⊢
          split at hconf
          · rename_i hcond
            split at hconf
            · simp_all
            · simp at hconf
          · simp at hconf
        · simp only [process_frame, hcell] at hconf
          split at hconf
          · rename_i hcond
            simp only [Bool.and_eq_true, Bool.not_eq_true'] at hcond
            exact hcond.1.2
          · simp at hconf
  · intro hd rc hEq hcell hocc
    subst hEq
    simp only [process_frame, hcell]
    split
    · rename_i hcond
      simp only [Bool.and_eq_true, Bool.not_eq_true'] at hcond
      exact absurd hocc (by simp [hcond.1.2])
    · exact ⟨rfl, rfl⟩

/-- Witness for C3: the confirming instance (free cell, dwell complete)
has an unoccupied selected cell, and on an all-occupied grid a pointing
frame neither confirms nor keeps a dwell timer. -/
theorem C3_witness :
    (process_frame gridAllFree sDwell (some handP) 1).is_confirmed = true ∧
    (∃ rc, (process_frame gridAllFree sDwell (some handP) 1).selected_cell =
        some rc ∧ gridAllFree.is_cell_occupied rc.1 rc.2 = false) ∧
    gridAllOcc.get_grid_cell handP.x handP.y = some (0, 0) ∧
    gridAllOcc.is_cell_occupied 0 0 = true ∧
    ((process_frame gridAllOcc initDetectorState (some handP) 0).is_confirmed =
        false ∧
      (process_frame gridAllOcc initDetectorState
          (some handP) 0).state.start_time = none) :=
  ⟨confirm_example,
    (C3_confirmed_cell_unoccupied gridAllFree sDwell (some handP) 1).1
      confirm_example,
    by decide, by decide,
    (C3_confirmed_cell_unoccupied gridAllOcc initDetectorState
        (some handP) 0).2 handP (0, 0) rfl (by decide) (by decide)⟩

/-- Helper: the center pixel of cell index `k` along one grid axis,
`(2k+1)·gs/2`, lies in cell `k` again and below the covered extent. -/
theorem center_div (gs k n : ℕ) (hg : 0 < gs) (hk : k < n) :
    ((2 * k + 1) * gs / 2) / gs = k ∧ (2 * k + 1) * gs / 2 < n * gs := by
  have h1 : (2 * k + 1) * gs = gs + (k * gs) * 2 := by ring
  have h2 : (2 * k + 1) * gs / 2 = gs / 2 + k * gs := by
    rw [h1, Nat.add_mul_div_right _ _ (by norm_num : 0 < 2)]
  have h3 : gs / 2 < gs := Nat.div_lt_self hg one_lt_two
  constructor
  · rw [h2]
    have h4 : (gs / 2 + k * gs) / gs = gs / 2 / gs + k :=
      Nat.add_mul_div_right _ _ hg
    rw [h4, Nat.div_eq_of_lt h3]
    omega
  · rw [h2]
    calc gs / 2 + k * gs < gs + k * gs := by omega
    _ = (k + 1) * gs := by ring
    _ ≤ n * gs := Nat.mul_le_mul_right _ hk

/-- C7: for every in-range cell `(r, c)`, mapping the cell's center
pixel back through `get_grid_cell` yields `(r, c)` again; and every
pixel outside the image bounds or outside the covered cell range maps
to `none`, never to a clamped nearby cell. -/
theorem C7_cell_center_roundtrip (g : GridSystem) (hg : 0 < g.grid_size) :
    (∀ r c, r < g.rows → c < g.cols →
      ∃ ctr, g.get_cell_center r c = some ctr ∧
        g.get_grid_cell ctr.1 ctr.2 = some (r, c)) ∧
    (∀ x y : ℤ,
      (¬ (0 ≤ x ∧ x < (g.width : ℤ) ∧ 0 ≤ y ∧ y < (g.height : ℤ)) ∨
        g.rows ≤ y.toNat / g.grid_size ∨ g.cols ≤ x.toNat / g.grid_size) →
      g.get_grid_cell x y = none) := by
  constructor
  · intro r c hr hc
    have hcx := center_div g.grid_size c g.cols hg hc
    have hcy := center_div g.grid_size r g.rows hg hr
    have hcw : (2 * c + 1) * g.grid_size / 2 < g.width := by
      calc (2 * c + 1) * g.grid_size / 2 < g.cols * g.grid_size := hcx.2
      _ ≤ g.width := Nat.div_mul_le_self _ _
    have hch : (2 * r + 1) * g.grid_size / 2 < g.height := by
      calc (2 * r + 1) * g.grid_size / 2 < g.rows * g.grid_size := hcy.2
      _ ≤ g.height := Nat.div_mul_le_self _ _
    refine ⟨((((2 * c + 1) * g.grid_size / 2 : ℕ) : ℤ),
      (((2 * r + 1) * g.grid_size / 2 : ℕ) : ℤ)), ?_, ?_⟩
    · simp only [GridSystem.get_cell_center]
      rw [if_pos ⟨hr, hc⟩]
    · simp only [GridSystem.get_grid_cell, Int.toNat_natCast]
      rw [hcx.1, hcy.1,
        if_pos ⟨Int.natCast_nonneg _, by exact_mod_cast hcw,
          Int.natCast_nonneg _, by exact_mod_cast hch⟩,
        if_pos ⟨hr, hc⟩]
  · intro x y hcond
    simp only [GridSystem.get_grid_cell]
    rcases hcond with h | h | h <;> split_ifs <;> first | rfl | omega

/-- Witness for C7: on the 640×480 grid with 30-pixel cells, cell
(2, 3) round-trips through its center pixel, and the out-of-bounds
pixel (700, 5) maps to no cell. -/
theorem C7_witness :
    0 < gridAllFree.grid_size ∧
    (∃ ctr, gridAllFree.get_cell_center 2 3 = some ctr ∧
      gridAllFree.get_grid_cell ctr.1 ctr.2 = some (2, 3)) ∧
    gridAllFree.get_grid_cell 700 5 = none :=
  ⟨by decide,
    (C7_cell_center_roundtrip gridAllFree (by decide)).1 2 3 (by decide)
      (by decide),
    (C7_cell_center_roundtrip gridAllFree (by decide)).2 700 5
      (by decide)⟩

/-- C8 (corrected): the engine applies no cell hysteresis — the
reported `current_cell` is recomputed from the raw fingertip pixel on
every frame, so a pointer alternating between two adjacent cells (one
frame each, fewer than any debounce threshold N ≥ 2 of consecutive
frames) changes the reported cell on every single frame. -/
theorem C8_counterexample_oscillation :
    (((run_detector gridAllFree initDetectorState
        [(some handA, 0), (some handB, 1), (some handA, 2),
          (some handB, 3)]).2).map fun r => r.state.current_cell) =
      [some (0, 0), some (0, 1), some (0, 0), some (0, 1)] := by decide

/-- C8 (amended): no hysteresis is applied — on every frame with a hand
detected the reported current cell is exactly the grid cell of that
frame's fingertip pixel (committed immediately, after one observation);
on a frame with no hand the previous value is retained. -/
theorem C8_no_hysteresis_current_cell_immediate (g : GridSystem)
    (s : DetectorState) (hd : HandInput) (now : ℚ) :
    (process_frame g s (some hd) now).state.current_cell =
      g.get_grid_cell hd.x hd.y ∧
    (process_frame g s none now).state.current_cell = s.current_cell := by
  constructor
  · simp only [process_frame]
    split
    · split <;> rfl
    · rfl
  · rfl

/-- C9 (corrected): a no-hand frame does not clear the sample history —
after three frames that filled the stability buffer, a hand-loss frame
leaves `position_buffer` non-empty (the claim says it is cleared). -/
theorem C9_counterexample_buffer_not_cleared :
    ((run_detector gridAllFree initDetectorState
      [(some handA, 0), (some handA, 1), (some handA, 2),
        (none, 3)]).1).position_buffer ≠ [] := by decide

/-- C9 (amended): processing a frame with no hand detected clears the
dwell timer, the confirmation flag and `last_position`, and never
confirms — but it leaves `position_buffer` untouched, so pre-loss
samples can enter later stability computations; only the explicit
`reset()` clears the buffer. -/
theorem C9_hand_loss_resets_timer_but_keeps_buffer (g : GridSystem)
    (s : DetectorState) (now : ℚ) :
    (process_frame g s none now).state.start_time = none ∧
    (process_frame g s none now).state.position_confirmed = false ∧
    (process_frame g s none now).state.last_position = none ∧
    (process_frame g s none now).state.position_buffer = s.position_buffer ∧
    (process_frame g s none now).is_confirmed = false ∧
    (detector_reset s).position_buffer = [] :=
  ⟨rfl, rfl, rfl, rfl, rfl, rfl⟩

/-- C10: `game_server.py` requests `MESSAGE_TYPE_ERROR` from
`config.settings`, `settings.py` defines no such name (its message-type
enumeration stops at `MESSAGE_TYPE_CAMERA_INFO = 12`), so loading the
game-server module fails with an import error at exactly that name,
before any handler code can run. -/
theorem C10_game_server_import_error :
    resolveFromImport settingsDefinedNames gameServerSettingsImports =
      Except.error "MESSAGE_TYPE_ERROR" ∧
    "MESSAGE_TYPE_ERROR" ∈ gameServerSettingsImports ∧
    "MESSAGE_TYPE_ERROR" ∉ settingsDefinedNames ∧
    settingsMessageTypes.lookup "MESSAGE_TYPE_CAMERA_INFO" = some 12 ∧
    ∀ e ∈ settingsMessageTypes, e.2 ≤ 12 :=
  ⟨rfl, by decide, by decide, rfl, by decide⟩

/-- Helper: overlap weights are nonnegative. -/
theorem overlapWeight_nonneg (a b : ℚ) (i : ℕ) : 0 ≤ overlapWeight a b i :=
  le_max_left 0 _

/-- Helper: the overlap of pixel `[y, y+1]` with `[a, b]` telescopes
through the clamp function `t to max a (min t b)`. -/
theorem overlapWeight_eq_clamp (a b : ℚ) (hab : a ≤ b) (y : ℕ) :
    overlapWeight a b y =
      max a (min ((y : ℚ) + 1) b) - max a (min (y : ℚ) b) := by
  unfold overlapWeight
  rcases le_total ((y : ℚ) + 1) a with h1 | h1 <;>
    rcases le_total (y : ℚ) a with h2 | h2 <;>
    rcases le_total ((y : ℚ) + 1) b with h3 | h3 <;>
    rcases le_total (y : ℚ) b with h4 | h4 <;>
    simp [max_def, min_def] <;> split_ifs <;> linarith

/-- Helper: the weights of one footprint sum to at most its span. -/
theorem sum_overlapWeight_le (a b : ℚ) (h0 : 0 ≤ a) (hab : a ≤ b) (n : ℕ) :
    ∑ y in Finset.range n, overlapWeight a b y ≤ b - a := by
  have hs : ∑ y in Finset.range n, overlapWeight a b y
      = max a (min ((n : ℚ)) b) - max a (min ((0 : ℕ) : ℚ) b) := by
    have step : ∀ y ∈ Finset.range n, overlapWeight a b y =
        (fun t : ℕ => max a (min (t : ℚ) b)) (y + 1) -
          (fun t : ℕ => max a (min (t : ℚ) b)) y := by
      intro y _
      have := overlapWeight_eq_clamp a b hab y
      simpa [Nat.cast_add] using this
    rw [Finset.sum_congr rfl step]
    exact Finset.sum_range_sub (fun t : ℕ => max a (min (t : ℚ) b)) n
  rw [hs]
  have hmin0 : min ((0 : ℕ) : ℚ) b = 0 := by
    simp
    linarith
  have h2 : max a (min ((0 : ℕ) : ℚ) b) = a := by
    rw [hmin0]
    exact max_eq_left h0
  have h3 : max a (min ((n : ℚ)) b) ≤ b :=
    max_le hab (min_le_right _ _)
  linarith

/-- Helper: footprints start at nonnegative coordinates. -/
theorem footLo_nonneg (n outN idx : ℕ) : 0 ≤ footLo n outN idx := by
  unfold footLo
  positivity

/-- Helper: footprints are ordered intervals. -/
theorem footLo_le_footHi (n outN idx : ℕ) :
    footLo n outN idx ≤ footHi n outN idx := by
  unfold footLo footHi
  have h1 : (idx : ℚ) * n ≤ ((idx : ℚ) + 1) * n := by
    have : (0:ℚ) ≤ (n : ℚ) := by positivity
    nlinarith
  exact div_le_div_of_le_of_nonneg h1 (by positivity)

/-- Helper: a footprint spans at most `n / outN`. -/
theorem foot_width_le (n outN idx : ℕ) :
    footHi n outN idx - footLo n outN idx ≤ (n : ℚ) / outN := by
  unfold footLo footHi
  rcases Nat.eq_zero_or_pos outN with h | h
  · simp [h]
  · rw [div_sub_div_same]
    apply div_le_div_of_le_of_nonneg ?_ (by positivity)
    have h2 : (0:ℚ) ≤ (n : ℚ) := by positivity
    nlinarith

/-- Helper: when every pixel carrying positive weight in the footprint
of cell `(r, c)` is below 128, the weighted sum is at most `127 * area`. -/
theorem areaSum_le (m : Mask) (rows cols r c : ℕ)
    (hv : ∀ y < m.h, ∀ x < m.w,
      overlapWeight (footLo m.h rows r) (footHi m.h rows r) y ≠ 0 →
      overlapWeight (footLo m.w cols c) (footHi m.w cols c) x ≠ 0 →
      m.val y x < 128) :
    areaSum m rows cols r c ≤ 127 * cellArea m rows cols := by
  have hWy := (sum_overlapWeight_le (footLo m.h rows r) (footHi m.h rows r)
    (footLo_nonneg _ _ _) (footLo_le_footHi _ _ _) m.h).trans
    (foot_width_le m.h rows r)
  have hWx := (sum_overlapWeight_le (footLo m.w cols c) (footHi m.w cols c)
    (footLo_nonneg _ _ _) (footLo_le_footHi _ _ _) m.w).trans
    (foot_width_le m.w cols c)
  have inner : ∀ y ∈ Finset.range m.h,
      ∑ x in Finset.range m.w,
        overlapWeight (footLo m.h rows r) (footHi m.h rows r) y *
          overlapWeight (footLo m.w cols c) (footHi m.w cols c) x *
          (m.val y x : ℚ) ≤
      overlapWeight (footLo m.h rows r) (footHi m.h rows r) y *
        (127 * ((m.w : ℚ) / cols)) := by
    intro y hy
    rcases eq_or_lt_of_le
        (overlapWeight_nonneg (footLo m.h rows r) (footHi m.h rows r) y)
      with h0 | h0
    · rw [← h0]
      simp
    · have hterm : ∀ x ∈ Finset.range m.w,
          overlapWeight (footLo m.w cols c) (footHi m.w cols c) x *
            (m.val y x : ℚ) ≤
          overlapWeight (footLo m.w cols c) (footHi m.w cols c) x * 127 := by
        intro x hx
        rcases eq_or_lt_of_le
            (overlapWeight_nonneg (footLo m.w cols c) (footHi m.w cols c) x)
          with h1 | h1
        · rw [← h1]
          simp
        · have hval : m.val y x < 128 :=
            hv y (Finset.mem_range.mp hy) x (Finset.mem_range.mp hx)
              (ne_of_gt h0) (ne_of_gt h1)
          have hval127 : ((m.val y x : ℚ)) ≤ 127 := by
            have h2 : m.val y x ≤ 127 := by omega
            exact_mod_cast h2
          exact mul_le_mul_of_nonneg_left hval127 h1.le
      have hsx : ∑ x in Finset.range m.w,
          overlapWeight (footLo m.w cols c) (footHi m.w cols c) x *
            (m.val y x : ℚ) ≤ 127 * ((m.w : ℚ) / cols) := by
        have step1 := Finset.sum_le_sum hterm
        have step2 : ∑ x in Finset.range m.w,
            overlapWeight (footLo m.w cols c) (footHi m.w cols c) x * 127 =
            (∑ x in Finset.range m.w,
              overlapWeight (footLo m.w cols c) (footHi m.w cols c) x) * 127 :=
          (Finset.sum_mul _ _ _).symm
        have step3 : (∑ x in Finset.range m.w,
            overlapWeight (footLo m.w cols c) (footHi m.w cols c) x) * 127 ≤
            ((m.w : ℚ) / cols) * 127 :=
          mul_le_mul_of_nonneg_right hWx (by norm_num)
        calc ∑ x in Finset.range m.w,
            overlapWeight (footLo m.w cols c) (footHi m.w cols c) x *
              (m.val y x : ℚ) ≤ _ := step1
          _ = _ := step2
          _ ≤ ((m.w : ℚ) / cols) * 127 := step3
          _ = 127 * ((m.w : ℚ) / cols) := by ring
      have hfac : ∑ x in Finset.range m.w,
          overlapWeight (footLo m.h rows r) (footHi m.h rows r) y *
            overlapWeight (footLo m.w cols c) (footHi m.w cols c) x *
            (m.val y x : ℚ) =
          overlapWeight (footLo m.h rows r) (footHi m.h rows r) y *
            ∑ x in Finset.range m.w,
              overlapWeight (footLo m.w cols c) (footHi m.w cols c) x *
                (m.val y x : ℚ) := by
        rw [Finset.mul_sum]
        apply Finset.sum_congr rfl
        intro x _
        ring
      rw [hfac]
      exact mul_le_mul_of_nonneg_left hsx h0.le
  have hmain := Finset.sum_le_sum inner
  have hfac2 : ∑ y in Finset.range m.h,
      overlapWeight (footLo m.h rows r) (footHi m.h rows r) y *
        (127 * ((m.w : ℚ) / cols)) =
      (∑ y in Finset.range m.h,
        overlapWeight (footLo m.h rows r) (footHi m.h rows r) y) *
        (127 * ((m.w : ℚ) / cols)) :=
    (Finset.sum_mul _ _ _).symm
  have hlast : (∑ y in Finset.range m.h,
      overlapWeight (footLo m.h rows r) (footHi m.h rows r) y) *
      (127 * ((m.w : ℚ) / cols)) ≤
      ((m.h : ℚ) / rows) * (127 * ((m.w : ℚ) / cols)) :=
    mul_le_mul_of_nonneg_right hWy (by positivity)
  have hfinal : ((m.h : ℚ) / rows) * (127 * ((m.w : ℚ) / cols)) =
      127 * cellArea m rows cols := by
    unfold cellArea
    ring
  unfold areaSum
  rw [← hfinal]
  exact hmain.trans (hfac2.le.trans hlast)

/-- C6: occupancy-grid construction marks cell `(r, c)` occupied
exactly when the area-averaged (INTER_AREA-downsampled, rounded) mask
value over the cell's footprint is below the fixed threshold 128; in
particular a mask that is entirely below the threshold over the cell's
footprint marks the cell occupied. -/
theorem C6_occupancy_threshold (m : Mask) (gs r c : ℕ)
    (hr : r < m.h / gs) (hc : c < m.w / gs) :
    ((update_grid_from_mask m gs).is_cell_occupied r c = true ↔
      interAreaValue m (m.h / gs) (m.w / gs) r c < 128) ∧
    ((∀ y < m.h, ∀ x < m.w,
        overlapWeight (footLo m.h (m.h / gs) r) (footHi m.h (m.h / gs) r) y ≠ 0 →
        overlapWeight (footLo m.w (m.w / gs) c) (footHi m.w (m.w / gs) c) x ≠ 0 →
        m.val y x < 128) →
      (update_grid_from_mask m gs).is_cell_occupied r c = true) := by
  have hrc : (update_grid_from_mask m gs).is_cell_occupied r c =
      decide (interAreaValue m (m.h / gs) (m.w / gs) r c < 128) := by
    unfold GridSystem.is_cell_occupied update_grid_from_mask GridSystem.rows
      GridSystem.cols
    rw [if_pos ⟨hr, hc⟩]
  constructor
  · rw [hrc]
    simp
  · intro hv
    rw [hrc]
    have hrows : 0 < m.h / gs := lt_of_le_of_lt (Nat.zero_le r) hr
    have hcols : 0 < m.w / gs := lt_of_le_of_lt (Nat.zero_le c) hc
    have hh : 0 < m.h := by
      rcases Nat.eq_zero_or_pos m.h with h0 | h0
      · rw [h0] at hrows
        simp at hrows
      · exact h0
    have hw : 0 < m.w := by
      rcases Nat.eq_zero_or_pos m.w with h0 | h0
      · rw [h0] at hcols
        simp at hcols
      · exact h0
    have hA : 0 < cellArea m (m.h / gs) (m.w / gs) := by
      unfold cellArea
      have h1 : (0:ℚ) < (m.h : ℚ) := by exact_mod_cast hh
      have h2 : (0:ℚ) < ((m.h / gs : ℕ) : ℚ) := by exact_mod_cast hrows
      have h3 : (0:ℚ) < (m.w : ℚ) := by exact_mod_cast hw
      have h4 : (0:ℚ) < ((m.w / gs : ℕ) : ℚ) := by exact_mod_cast hcols
      exact mul_pos (div_pos h1 h2) (div_pos h3 h4)
    have hS := areaSum_le m (m.h / gs) (m.w / gs) r c hv
    have hq : areaSum m (m.h / gs) (m.w / gs) r c /
        cellArea m (m.h / gs) (m.w / gs) ≤ 127 := by
      rw [div_le_iff hA]
      linarith
    have hfl : interAreaValue m (m.h / gs) (m.w / gs) r c < 128 := by
      unfold interAreaValue
      apply Int.floor_lt.mpr
      push_cast
      linarith
    simp [hfl]

/-- Helper: the all-black mask is everywhere below the threshold. -/
theorem maskZero_below_threshold (y x : ℕ) : maskZero.val y x < 128 := by
  norm_num [maskZero]

/-- Witness for C6: on the all-black 60 by 60 mask with 30-pixel cells,
cell (0, 0) is occupied. -/
theorem C6_witness :
    (0 : ℕ) < maskZero.h / 30 ∧ (0 : ℕ) < maskZero.w / 30 ∧
    (update_grid_from_mask maskZero 30).is_cell_occupied 0 0 = true :=
  ⟨by decide, by decide,
    (C6_occupancy_threshold maskZero 30 0 0 (by decide) (by decide)).2
      (fun y _ x _ _ _ => maskZero_below_threshold y x)⟩

/-- Helper: a left fold with a binary minimum stays within the inputs. -/
theorem foldl_min_mem (l : List (ℕ × Node)) (e0 : ℕ × Node) :
    l.foldl (fun a b => if entryLe a b then a else b) e0 ∈ e0 :: l := by
  induction l generalizing e0 with
  | nil => simp
  | cons b t ih =>
    simp only [List.foldl_cons]
    have h := ih (if entryLe e0 b then e0 else b)
    rcases List.mem_cons.mp h with h1 | h1
    · rw [h1]
      split <;> simp
    · exact List.mem_cons_of_mem _ (List.mem_cons_of_mem _ h1)

/-- Helper: `popMin` returns an element of the frontier and keeps only
elements of the frontier. -/
theorem popMin_spec (l : List (ℕ × Node)) (e : ℕ × Node)
    (rest : List (ℕ × Node)) (h : popMin l = some (e, rest)) :
    e ∈ l ∧ ∀ x ∈ rest, x ∈ l := by
  unfold popMin at h
  cases l with
  | nil => simp [minEntry] at h
  | cons b t =>
    simp only [minEntry, Option.some.injEq, Prod.mk.injEq] at h
    obtain ⟨he, hrest⟩ := h
    constructor
    · rw [← he]
      exact foldl_min_mem t b
    · intro x hx
      rw [← hrest] at hx
      exact List.mem_of_mem_erase hx

/-- Helper: relaxing one neighbour of a reachable node preserves the
reachability invariant. -/
theorem relaxNeighbor_reach (m : Mask) (start goal cur : Node) (curCost : ℕ)
    (hcur : Reach m start cur) (st : AState) (n : Node) (hn : n ∈ nbrs m cur)
    (hst : ReachState m start st) :
    ReachState m start (relaxNeighbor goal cur curCost st n) := by
  unfold relaxNeighbor
  dsimp only
  split
  · constructor
    · intro e he
      simp only [List.mem_append, List.mem_singleton] at he
      rcases he with he | he
      · exact hst.1 e he
      · rw [he]
        exact Reach.step hcur hn
    · intro p hp
      rcases List.mem_cons.mp hp with hp | hp
      · rw [hp]
        exact Reach.step hcur hn
      · exact hst.2 p hp
  · exact hst

/-- Helper: folding the relaxation over any sublist of the neighbour
list preserves the reachability invariant. -/
theorem foldl_relax_reach (m : Mask) (start goal cur : Node) (curCost : ℕ)
    (hcur : Reach m start cur) :
    ∀ (l : List Node), (∀ n ∈ l, n ∈ nbrs m cur) →
    ∀ st : AState, ReachState m start st →
    ReachState m start (l.foldl (relaxNeighbor goal cur curCost) st) := by
  intro l
  induction l with
  | nil => intro _ st h; exact h
  | cons n t ih =>
    intro hl st h
    simp only [List.foldl_cons]
    exact ih (fun x hx => hl x (List.mem_cons_of_mem n hx))
      _ (relaxNeighbor_reach m start goal cur curCost hcur st n
        (hl n (List.mem_cons_self n t)) h)

/-- Helper: expanding a reachable node preserves the invariant. -/
theorem expand_reach (m : Mask) (start goal cur : Node)
    (hcur : Reach m start cur) (st : AState) (hst : ReachState m start st) :
    ReachState m start (expand m goal cur st) := by
  unfold expand
  exact foldl_relax_reach m start goal cur _ hcur (nbrs m cur)
    (fun n hn => hn) st hst

/-- Helper: the whole A* loop preserves the reachability invariant. -/
theorem astarLoop_reach (m : Mask) (start goal : Node) :
    ∀ (fuel : ℕ) (st : AState), ReachState m start st →
    ReachState m start (astarLoop m goal fuel st) := by
  intro fuel
  induction fuel with
  | zero => intro st h; exact h
  | succ k ih =>
    intro st h
    cases hp : popMin st.frontier with
    | none => simpa [astarLoop, hp] using h
    | some er =>
      obtain ⟨e, rest⟩ := er
      have hmem := popMin_spec st.frontier e rest hp
      have hrest : ReachState m start { st with frontier := rest } :=
        ⟨fun x hx => h.1 x (hmem.2 x hx), h.2⟩
      by_cases hg : e.2 = goal
      · simpa [astarLoop, hp, hg] using hrest
      · simp only [astarLoop, hp, hg, if_neg hg]
        exact ih _ (expand_reach m start goal e.2 (h.1 e hmem.1) _ hrest)

/-- Helper: association-list lookup misses keys that are not bound. -/
theorem lookupA_eq_none {β : Type} (l : List (Node × β)) (k : Node)
    (h : ∀ p ∈ l, p.1 ≠ k) : lookupA l k = none := by
  induction l with
  | nil => rfl
  | cons e t ih =>
    unfold lookupA
    rw [if_neg (h e (List.mem_cons_self e t))]
    exact ih fun p hp => h p (List.mem_cons_of_mem e hp)

/-- Helper: reconstruction from a goal that was never recorded in
`came_from` produces the empty path. -/
theorem reconstruct_eq_nil (came : List (Node × Option Node)) (goal : Node)
    (h : lookupA came goal = none) : reconstruct came goal = [] := by
  unfold reconstruct
  have hzero : reconstructAux came (came.length + 1) (some goal) [] = [] := by
    unfold reconstructAux
    rw [h]
  rw [hzero]
  rfl

/-- C5: on every mask in which no 4-connected sequence of free cells
joins the start cell to the goal cell, `astar` returns the empty path,
`handle_astar_from_mask` maps it to `None`, and the path stage of
`process_sam` surfaces this as an ERROR message with the specific code
`PATHFINDING_ERROR` — no PATH message and no degenerate route is
emitted. -/
theorem C5_no_path_is_error (m : Mask) (goalArg : Option Node)
    (hne : ¬ Reach m (astarStart m) (goalArg.getD (astarDefaultGoal m))) :
    astar m goalArg = [] ∧
    handle_astar_from_mask m goalArg = none ∧
    processSamPathStage m goalArg =
      [SamMsg.progressUpdate "Calculando ruta optima..." 85,
       SamMsg.errorMsg "Error al calcular ruta" "PATHFINDING_ERROR"] := by
  have hinit : ReachState m (astarStart m)
      { frontier := [(0, astarStart m)], came_from := [(astarStart m, none)],
        cost_so_far := [(astarStart m, 0)] } := by
    constructor
    · intro e he
      simp only [List.mem_singleton] at he
      rw [he]
      exact Reach.refl
    · intro p hp
      simp only [List.mem_singleton] at hp
      rw [hp]
      exact Reach.refl
  have hinv := astarLoop_reach m (astarStart m)
    (goalArg.getD (astarDefaultGoal m)) (astarFuel m) _ hinit
  have hkey : lookupA (astarLoop m (goalArg.getD (astarDefaultGoal m))
      (astarFuel m)
      { frontier := [(0, astarStart m)], came_from := [(astarStart m, none)],
        cost_so_far := [(astarStart m, 0)] }).came_from
      (goalArg.getD (astarDefaultGoal m)) = none := by
    apply lookupA_eq_none
    intro p hp hk
    exact hne (hk ▸ hinv.2 p hp)
  have hastar : astar m goalArg = [] := by
    unfold astar
    exact reconstruct_eq_nil _ _ hkey
  refine ⟨hastar, ?_, ?_⟩
  · unfold handle_astar_from_mask
    rw [hastar]
    rfl
  · unfold processSamPathStage handle_astar_from_mask
    rw [hastar]
    rfl

/-- Helper: the reachable region of `maskEnclosed` is closed under the
neighbour relation. -/
theorem enclosed_closure_closed :
    ∀ a ∈ enclosedClosure, ∀ b ∈ nbrs maskEnclosed a, b ∈ enclosedClosure := by
  decide

/-- Helper: the enclosed goal (1, 0) of `maskEnclosed` is unreachable
from the start cell. -/
theorem enclosed_goal_unreachable :
    ¬ Reach maskEnclosed (astarStart maskEnclosed) (1, 0) := by
  have hsub : ∀ n, Reach maskEnclosed (astarStart maskEnclosed) n →
      n ∈ enclosedClosure := by
    intro n hn
    induction hn with
    | refl => decide
    | step ha hb ih => exact enclosed_closure_closed _ ih _ hb
  intro h
  have hmem := hsub _ h
  simp [enclosedClosure] at hmem

/-- Witness for C5: on the 3 by 3 mask whose goal cell is walled in by
obstacles, the hypothesis holds and the ERROR with code
`PATHFINDING_ERROR` is the only outcome. -/
theorem C5_witness :
    ¬ Reach maskEnclosed (astarStart maskEnclosed)
        ((some ((1, 0) : Node)).getD (astarDefaultGoal maskEnclosed)) ∧
    astar maskEnclosed (some (1, 0)) = [] ∧
    handle_astar_from_mask maskEnclosed (some (1, 0)) = none ∧
    processSamPathStage maskEnclosed (some (1, 0)) =
      [SamMsg.progressUpdate "Calculando ruta optima..." 85,
       SamMsg.errorMsg "Error al calcular ruta" "PATHFINDING_ERROR"] :=
  ⟨enclosed_goal_unreachable,
    (C5_no_path_is_error maskEnclosed (some (1, 0))
      enclosed_goal_unreachable).1,
    (C5_no_path_is_error maskEnclosed (some (1, 0))
      enclosed_goal_unreachable).2.1,
    (C5_no_path_is_error maskEnclosed (some (1, 0))
      enclosed_goal_unreachable).2.2⟩

/-- Helper: the heap-entry order as an arithmetic proposition. -/
theorem entryLe_iff (a b : ℕ × Node) : entryLe a b = true ↔
    (a.1 < b.1 ∨ (a.1 = b.1 ∧ (a.2.1 < b.2.1 ∨
      (a.2.1 = b.2.1 ∧ a.2.2 ≤ b.2.2)))) := by
  unfold entryLe
  simp [Bool.or_eq_true, Bool.and_eq_true, decide_eq_true_eq]

/-- Helper: reflexivity of the heap-entry order. -/
theorem entryLe_refl (a : ℕ × Node) : entryLe a a = true := by
  rw [entryLe_iff]
  omega

/-- Helper: totality of the heap-entry order. -/
theorem entryLe_total (a b : ℕ × Node) :
    entryLe a b = true ∨ entryLe b a = true := by
  rw [entryLe_iff, entryLe_iff]
  omega

/-- Helper: transitivity of the heap-entry order. -/
theorem entryLe_trans (a b c : ℕ × Node) (h1 : entryLe a b = true)
    (h2 : entryLe b c = true) : entryLe a c = true := by
  rw [entryLe_iff] at h1 h2 ⊢
  omega

/-- Helper: the fold underlying `minEntry` returns a lower bound. -/
theorem foldl_min_le (l : List (ℕ × Node)) (e0 : ℕ × Node) :
    ∀ x ∈ e0 :: l,
      entryLe (l.foldl (fun a b => if entryLe a b then a else b) e0) x = true := by
  induction l generalizing e0 with
  | nil =>
    intro x hx
    simp only [List.mem_singleton] at hx
    rw [hx]
    exact entryLe_refl e0
  | cons b t ih =>
    intro x hx
    simp only [List.foldl_cons]
    rcases List.mem_cons.mp hx with h1 | h1
    · subst h1
      by_cases hb : entryLe x b = true
      · rw [if_pos hb]
        exact ih x x (List.mem_cons_self _ _)
      · rw [if_neg hb]
        have hbx : entryLe b x = true := (entryLe_total x b).resolve_left hb
        exact entryLe_trans _ b x (ih b b (List.mem_cons_self _ _)) hbx
    · rcases List.mem_cons.mp h1 with h2 | h2
      · subst h2
        by_cases hb : entryLe e0 x = true
        · rw [if_pos hb]
          exact entryLe_trans _ e0 x (ih e0 e0 (List.mem_cons_self _ _)) hb
        · rw [if_neg hb]
          exact ih x x (List.mem_cons_self _ _)
      · by_cases hb : entryLe e0 b = true
        · rw [if_pos hb]
          exact ih e0 x (List.mem_cons_of_mem _ h2)
        · rw [if_neg hb]
          exact ih b x (List.mem_cons_of_mem _ h2)

/-- Helper: when the last entry beats every other entry strictly on
priority, it is the minimum. -/
theorem minEntry_last (l : List (ℕ × Node)) (e : ℕ × Node)
    (h : ∀ x ∈ l, e.1 < x.1) : minEntry (l ++ [e]) = some e := by
  cases l with
  | nil => rfl
  | cons b t =>
    simp only [List.cons_append, minEntry, Option.some.injEq]
    have hmem : (t ++ [e]).foldl (fun a b => if entryLe a b then a else b) b ∈
        b :: (t ++ [e]) := foldl_min_mem _ _
    have hle := foldl_min_le (t ++ [e]) b
    set r := (t ++ [e]).foldl (fun a b => if entryLe a b then a else b) b with hr
    have hre : entryLe r e = true := hle e (by simp)
    rcases List.mem_cons.mp hmem with h1 | h1
    · exfalso
      have : e.1 < r.1 := h r (h1 ▸ List.mem_cons_self b t)
      rw [entryLe_iff] at hre
      omega
    · rcases List.mem_append.mp h1 with h2 | h2
      · exfalso
        have : e.1 < r.1 := h r (List.mem_cons_of_mem _ h2)
        rw [entryLe_iff] at hre
        omega
      · simpa using h2

/-- Helper: `popMin` pops a strictly-smallest last entry and leaves the
rest untouched. -/
theorem popMin_last (l : List (ℕ × Node)) (e : ℕ × Node)
    (h : ∀ x ∈ l, e.1 < x.1) : popMin (l ++ [e]) = some (e, l) := by
  unfold popMin
  rw [minEntry_last l e h]
  have hne : e ∉ l := fun hmem => lt_irrefl _ (h e hmem)
  show some (e, (l ++ [e]).erase e) = some (e, l)
  rw [List.erase_append_right _ hne]
  simp

/-- Helper: one step of `filterMap` whose head result is an `if`. -/
theorem filterMap_cons_if {α β : Type} (C : Prop) [Decidable C] (v : β)
    (f : α → Option β) (a : α) (l : List α)
    (hfa : f a = if C then some v else none) :
    List.filterMap f (a :: l) =
      (if C then [v] else []) ++ List.filterMap f l := by
  by_cases hc : C
  · simp [List.filterMap_cons, hfa, hc]
  · simp [List.filterMap_cons, hfa, hc]

/-- Helper: the neighbour list of an in-bounds cell of the all-free
mask, in source order up, down, left, right. -/
theorem nbrs_emptyMask (h w y c : ℕ) (hy : y < h) (hc : c < w) :
    nbrs (emptyMask h w) (y, c) =
      (if 1 ≤ y then [(y - 1, c)] else []) ++
      ((if y + 1 < h then [(y + 1, c)] else []) ++
      ((if 1 ≤ c then [(y, c - 1)] else []) ++
      (if c + 1 < w then [(y, c + 1)] else []))) := by
  unfold nbrs
  rw [filterMap_cons_if (1 ≤ y) ((y - 1, c) : Node) _ _ _ ?_,
    filterMap_cons_if (y + 1 < h) ((y + 1, c) : Node) _ _ _ ?_,
    filterMap_cons_if (1 ≤ c) ((y, c - 1) : Node) _ _ _ ?_,
    filterMap_cons_if (c + 1 < w) ((y, c + 1) : Node) _ _ _ ?_]
  · simp only [List.filterMap_nil, List.append_nil]
  all_goals
    dsimp only [emptyMask]
    split_ifs <;>
      first
        | rfl
        | (exfalso; omega)
        | (simp only [Option.some.injEq, Prod.mk.injEq]; constructor <;> omega)

/-- Helper: lookup at a freshly consed key. -/
theorem lookupA_cons_self {β : Type} (l : List (Node × β)) (k : Node) (v : β) :
    lookupA ((k, v) :: l) k = some v := by
  show (if k = k then some v else lookupA l k) = some v
  rw [if_pos rfl]

/-- Helper: a consed binding with a different key is transparent. -/
theorem lookupA_cons_ne {β : Type} (l : List (Node × β)) (a k : Node) (v : β)
    (h : a ≠ k) : lookupA ((a, v) :: l) k = lookupA l k := by
  show (if a = k then some v else lookupA l k) = lookupA l k
  rw [if_neg h]

/-- Helper: relaxation of a neighbour with no recorded cost pushes it. -/
theorem relaxNeighbor_push (goal cur n : Node) (curCost : ℕ) (st : AState)
    (h : lookupA st.cost_so_far n = none) :
    relaxNeighbor goal cur curCost st n =
      { frontier := st.frontier ++ [(curCost + 1 + heuristic goal n, n)],
        came_from := (n, some cur) :: st.came_from,
        cost_so_far := (n, curCost + 1) :: st.cost_so_far } := by
  unfold relaxNeighbor
  simp only [h]
  simp

/-- Helper: relaxation of a neighbour whose recorded cost is not beaten
is a no-op. -/
theorem relaxNeighbor_skip (goal cur n : Node) (curCost c0 : ℕ) (st : AState)
    (h : lookupA st.cost_so_far n = some c0) (hc : ¬ (curCost + 1 < c0)) :
    relaxNeighbor goal cur curCost st n = st := by
  unfold relaxNeighbor
  simp only [h]
  rw [if_neg]
  simp [hc]

/-- Helper: lookup skips a prefix containing no binding for the key. -/
theorem lookupA_append_none {β : Type} (l1 l2 : List (Node × β)) (q : Node)
    (h : ∀ p ∈ l1, p.1 ≠ q) : lookupA (l1 ++ l2) q = lookupA l2 q := by
  induction l1 with
  | nil => rfl
  | cons e t ih =>
    rw [List.cons_append]
    rw [lookupA_cons_ne _ _ _ _ (h e (List.mem_cons_self e t))]
    exact ih fun p hp => h p (List.mem_cons_of_mem e hp)

/-- Helper: priority of the upper off-row neighbour. -/
theorem heuristic_up (h w k : ℕ) (hy : 1 ≤ h / 2) (hk : k ≤ w - 2)
    (hw : 2 ≤ w) :
    k + 1 + heuristic (h / 2, 0) (h / 2 - 1, w - 1 - k) = w + 1 := by
  unfold heuristic
  omega

/-- Helper: priority of the lower off-row neighbour. -/
theorem heuristic_down (h w k : ℕ) (hk : k ≤ w - 2) (hw : 2 ≤ w) :
    k + 1 + heuristic (h / 2, 0) (h / 2 + 1, w - 1 - k) = w + 1 := by
  unfold heuristic
  omega

/-- Helper: priority of the on-row neighbour towards the goal. -/
theorem heuristic_left (h w k : ℕ) (hk : k ≤ w - 2) (hw : 2 ≤ w) :
    k + 1 + heuristic (h / 2, 0) (h / 2, w - 1 - k - 1) = w - 1 := by
  unfold heuristic
  omega

/-- Helper: relaxing the (possibly absent) off-row neighbours appends
only priority-`w+1` frontier entries and off-row bindings. -/
theorem fold_offrow_opt (h w k : ℕ) (hw : 2 ≤ w) (hk : k ≤ w - 2)
    (s : AState)
    (hnone : ∀ n : Node, n.1 ≠ h / 2 → n.2 = w - 1 - k →
      lookupA s.cost_so_far n = none) :
    ∃ (es : List (ℕ × Node)) (cameAdd : List (Node × Option Node))
      (costAdd : List (Node × ℕ)),
      ((if 1 ≤ h / 2 then [((h / 2 - 1 : ℕ), w - 1 - k)] else []) ++
        (if h / 2 + 1 < h then [((h / 2 + 1 : ℕ), w - 1 - k)] else [])).foldl
          (relaxNeighbor (h / 2, 0) (h / 2, w - 1 - k) k) s =
        { frontier := s.frontier ++ es,
          came_from := cameAdd ++ s.came_from,
          cost_so_far := costAdd ++ s.cost_so_far } ∧
      (∀ e ∈ es, e.1 = w + 1) ∧
      (∀ p ∈ costAdd, p.1.1 ≠ h / 2 ∧ p.1.2 = w - 1 - k) ∧
      (∀ p ∈ cameAdd, p.1.1 ≠ h / 2) := by
  by_cases hup : 1 ≤ h / 2
  · have hpushU := relaxNeighbor_push (h / 2, 0) (h / 2, w - 1 - k)
      ((h / 2 - 1 : ℕ), w - 1 - k) k s
      (hnone _ (by exact fun hE => by omega) rfl)
    rw [heuristic_up h w k hup hk hw] at hpushU
    by_cases hdn : h / 2 + 1 < h
    · refine ⟨[(w + 1, ((h / 2 - 1 : ℕ), w - 1 - k)),
        (w + 1, ((h / 2 + 1 : ℕ), w - 1 - k))],
        [(((h / 2 + 1 : ℕ), w - 1 - k), some (h / 2, w - 1 - k)),
         (((h / 2 - 1 : ℕ), w - 1 - k), some (h / 2, w - 1 - k))],
        [(((h / 2 + 1 : ℕ), w - 1 - k), k + 1),
         (((h / 2 - 1 : ℕ), w - 1 - k), k + 1)], ?_, ?_, ?_, ?_⟩
      · rw [if_pos hup, if_pos hdn]
        simp only [List.cons_append, List.nil_append, List.foldl_cons,
          List.foldl_nil]
        rw [hpushU]
        have hlookD : lookupA (AState.mk
            (s.frontier ++ [(w + 1, ((h / 2 - 1 : ℕ), w - 1 - k))])
            ((((h / 2 - 1 : ℕ), w - 1 - k), some (h / 2, w - 1 - k)) ::
              s.came_from)
            ((((h / 2 - 1 : ℕ), w - 1 - k), k + 1) ::
              s.cost_so_far)).cost_so_far
            ((h / 2 + 1 : ℕ), w - 1 - k) = none := by
          show lookupA ((((h / 2 - 1 : ℕ), w - 1 - k), k + 1) ::
            s.cost_so_far) ((h / 2 + 1 : ℕ), w - 1 - k) = none
          rw [lookupA_cons_ne]
          · exact hnone _ (by exact fun hE => by omega) rfl
          · intro hE
            have h1 := congrArg Prod.fst hE
            simp only at h1
            omega
        have hpushD := relaxNeighbor_push (h / 2, 0) (h / 2, w - 1 - k)
          ((h / 2 + 1 : ℕ), w - 1 - k) k _ hlookD
        rw [heuristic_down h w k hk hw] at hpushD
        rw [hpushD]
        simp [List.append_assoc]
      · intro e he
        fin_cases he <;> rfl
      · intro p hp
        fin_cases hp <;> exact ⟨by dsimp only; omega, rfl⟩
      · intro p hp
        fin_cases hp <;> (dsimp only; omega)
    · refine ⟨[(w + 1, ((h / 2 - 1 : ℕ), w - 1 - k))],
        [(((h / 2 - 1 : ℕ), w - 1 - k), some (h / 2, w - 1 - k))],
        [(((h / 2 - 1 : ℕ), w - 1 - k), k + 1)], ?_, ?_, ?_, ?_⟩
      · rw [if_pos hup, if_neg hdn]
        simp only [List.cons_append, List.nil_append, List.append_nil,
          List.foldl_cons, List.foldl_nil]
        rw [hpushU]
      · intro e he
        fin_cases he <;> rfl
      · intro p hp
        fin_cases hp <;> exact ⟨by dsimp only; omega, rfl⟩
      · intro p hp
        fin_cases hp <;> (dsimp only; omega)
  · by_cases hdn : h / 2 + 1 < h
    · have hpushD := relaxNeighbor_push (h / 2, 0) (h / 2, w - 1 - k)
        ((h / 2 + 1 : ℕ), w - 1 - k) k s
        (hnone _ (by exact fun hE => by omega) rfl)
      rw [heuristic_down h w k hk hw] at hpushD
      refine ⟨[(w + 1, ((h / 2 + 1 : ℕ), w - 1 - k))],
        [(((h / 2 + 1 : ℕ), w - 1 - k), some (h / 2, w - 1 - k))],
        [(((h / 2 + 1 : ℕ), w - 1 - k), k + 1)], ?_, ?_, ?_, ?_⟩
      · rw [if_neg hup, if_pos hdn]
        simp only [List.nil_append, List.foldl_cons, List.foldl_nil]
        rw [hpushD]
        rfl
      · intro e he
        fin_cases he <;> rfl
      · intro p hp
        fin_cases hp <;> exact ⟨by dsimp only; omega, rfl⟩
      · intro p hp
        fin_cases hp <;> (dsimp only; omega)
    · refine ⟨[], [], [], ?_, ?_, ?_, ?_⟩
      · rw [if_neg hup, if_neg hdn]
        simp
      · intro e he
        simp at he
      · intro p hp
        simp at hp
      · intro p hp
        simp at hp

/-- Helper: one A* iteration on the all-free mask advances `RowInv k`
to `RowInv (k+1)`. -/
theorem rowinv_step (h w k : ℕ) (hh : 1 ≤ h) (hw : 2 ≤ w) (hk : k ≤ w - 2)
    (st : AState) (hinv : RowInv h w k st) :
    ∃ st2 : AState, RowInv h w (k + 1) st2 ∧
      ∀ fuel : ℕ, astarLoop (emptyMask h w) ((h / 2 : ℕ), 0) (fuel + 1) st =
        astarLoop (emptyMask h w) ((h / 2 : ℕ), 0) fuel st2 := by
  obtain ⟨⟨junk, pr, hfr, hpr, hjunk⟩, hcost, hkeys, hcame, hstart, hlen⟩ := hinv
  have hy : h / 2 < h := Nat.div_lt_self (by omega) (by omega)
  have hcw : w - 1 - k < w := by omega
  have hpop : popMin st.frontier = some ((pr, ((h / 2 : ℕ), w - 1 - k)), junk) := by
    rw [hfr]
    exact popMin_last junk _ fun x hx => by
      rw [hjunk x hx]
      simp only
      omega
  have hne : (((h / 2 : ℕ), w - 1 - k) : Node) ≠ ((h / 2 : ℕ), 0) := by
    intro hE
    have h1 := congrArg Prod.snd hE
    simp only at h1
    omega
  have hnone : ∀ n : Node, n.1 ≠ h / 2 → n.2 = w - 1 - k →
      lookupA st.cost_so_far n = none := by
    intro n hn1 hn2
    apply lookupA_eq_none
    intro p hp hpn
    rcases hkeys p hp with ⟨h1, _, _⟩ | ⟨_, h2, _⟩
    · rw [hpn] at h1
      exact hn1 h1
    · rw [hpn] at h2
      omega
  obtain ⟨es, cameAdd, costAdd, hfold, hes, hcostAdd, hcameAdd⟩ :=
    fold_offrow_opt h w k hw hk { st with frontier := junk } hnone
  -- the left neighbour is pushed
  have hlookL : lookupA (costAdd ++ st.cost_so_far)
      ((h / 2 : ℕ), w - 1 - k - 1) = none := by
    rw [lookupA_append_none]
    · apply lookupA_eq_none
      intro p hp hpn
      rcases hkeys p hp with ⟨_, h2, _⟩ | ⟨h1, _, _⟩
      · rw [hpn] at h2
        simp only at h2
        omega
      · rw [hpn] at h1
        simp only at h1
        exact h1 rfl
    · intro p hp hpn
      have h1 := (hcostAdd p hp).1
      rw [hpn] at h1
      exact h1 rfl
  have hpushL := relaxNeighbor_push ((h / 2 : ℕ), 0) ((h / 2 : ℕ), w - 1 - k)
    ((h / 2 : ℕ), w - 1 - k - 1) k
    (AState.mk (junk ++ es) (cameAdd ++ st.came_from)
      (costAdd ++ st.cost_so_far)) hlookL
  rw [heuristic_left h w k hk hw] at hpushL
  -- the resulting state
  refine ⟨AState.mk ((junk ++ es) ++ [(w - 1, ((h / 2 : ℕ), w - 1 - k - 1))])
    ((((h / 2 : ℕ), w - 1 - k - 1), some ((h / 2 : ℕ), w - 1 - k)) ::
      (cameAdd ++ st.came_from))
    ((((h / 2 : ℕ), w - 1 - k - 1), k + 1) :: (costAdd ++ st.cost_so_far)),
    ⟨⟨junk ++ es, w - 1, ?_, le_refl _, ?_⟩, ?_, ?_, ?_, ?_, ?_⟩, ?_⟩
  · simp only
    rw [show w - 1 - (k + 1) = w - 1 - k - 1 from by omega]
  · intro e he
    rcases List.mem_append.mp he with h1 | h1
    · exact hjunk e h1
    · exact hes e h1
  · intro j hj
    simp only
    rcases Nat.lt_or_ge j (k + 1) with h1 | h1
    · have hj2 : j ≤ k := by omega
      rw [lookupA_cons_ne, lookupA_append_none]
      · exact hcost j hj2
      · intro p hp hpn
        have := (hcostAdd p hp).1
        rw [hpn] at this
        exact this rfl
      · intro hE
        have h2 := congrArg Prod.snd hE
        simp only at h2
        omega
    · have hj2 : j = k + 1 := by omega
      subst hj2
      rw [show w - 1 - (k + 1) = w - 1 - k - 1 from by omega]
      exact lookupA_cons_self _ _ _
  · intro p hp
    simp only at hp
    rcases List.mem_cons.mp hp with h1 | h1
    · rw [h1]
      left
      refine ⟨rfl, ?_, ?_⟩ <;> (simp only; omega)
    · rcases List.mem_append.mp h1 with h2 | h2
      · have := hcostAdd p h2
        right
        exact ⟨this.1, by omega, by omega⟩
      · rcases hkeys p h2 with ⟨h3, h4, h5⟩ | ⟨h3, h4, h5⟩
        · left
          exact ⟨h3, by omega, h5⟩
        · right
          exact ⟨h3, by omega, h5⟩
  · intro j hj1 hj2
    simp only
    rcases Nat.lt_or_ge j (k + 1) with h1 | h1
    · have hj3 : j ≤ k := by omega
      rw [lookupA_cons_ne, lookupA_append_none]
      · exact hcame j hj1 hj3
      · intro p hp hpn
        have := hcameAdd p hp
        rw [hpn] at this
        exact this rfl
      · intro hE
        have h2 := congrArg Prod.snd hE
        simp only at h2
        omega
    · have hj3 : j = k + 1 := by omega
      subst hj3
      rw [show w - 1 - (k + 1) = w - 1 - k - 1 from by omega,
        show w - (k + 1) = w - 1 - k from by omega]
      exact lookupA_cons_self _ _ _
  · simp only
    rw [lookupA_cons_ne, lookupA_append_none]
    · exact hstart
    · intro p hp hpn
      have := hcameAdd p hp
      rw [hpn] at this
      exact this rfl
    · intro hE
      have h2 := congrArg Prod.snd hE
      simp only at h2
      omega
  · simp only [List.length_cons, List.length_append]
    omega
  · intro fuel
    simp only [astarLoop, hpop]
    rw [if_neg hne]
    congr 1
    unfold expand
    have hcc : lookupA ({ st with frontier := junk } : AState).cost_so_far
        ((h / 2 : ℕ), w - 1 - k) = some k := hcost k (le_refl k)
    rw [hcc]
    simp only [Option.getD_some]
    rw [nbrs_emptyMask h w (h / 2) (w - 1 - k) hy hcw]
    rw [if_pos (show 1 ≤ w - 1 - k from by omega)]
    rw [← List.append_assoc, ← List.append_assoc]
    rw [List.foldl_append, List.foldl_append]
    rw [show (((if 1 ≤ h / 2 then [((h / 2 - 1 : ℕ), w - 1 - k)] else []) ++
        (if h / 2 + 1 < h then [((h / 2 + 1 : ℕ), w - 1 - k)] else [])).foldl
          (relaxNeighbor ((h / 2 : ℕ), 0) ((h / 2 : ℕ), w - 1 - k) k)
          { st with frontier := junk }) =
      AState.mk (junk ++ es) (cameAdd ++ st.came_from)
        (costAdd ++ st.cost_so_far) from hfold]
    simp only [List.foldl_cons, List.foldl_nil]
    rw [hpushL]
    by_cases hk1 : 1 ≤ k
    · rw [if_pos (show w - 1 - k + 1 < w from by omega)]
      have hlookR : lookupA ((((h / 2 : ℕ), w - 1 - k - 1), k + 1) ::
          (costAdd ++ st.cost_so_far)) ((h / 2 : ℕ), w - 1 - k + 1) =
          some (k - 1) := by
        rw [lookupA_cons_ne, lookupA_append_none]
        · have := hcost (k - 1) (by omega)
          rw [show w - 1 - (k - 1) = w - 1 - k + 1 from by omega] at this
          exact this
        · intro p hp hpn
          have := (hcostAdd p hp).1
          rw [hpn] at this
          exact this rfl
        · intro hE
          have h2 := congrArg Prod.snd hE
          simp only at h2
          omega
      simp only [List.foldl_cons, List.foldl_nil]
      rw [relaxNeighbor_skip _ _ _ _ (k - 1) _ hlookR (by omega)]
    · rw [if_neg (show ¬ (w - 1 - k + 1 < w) from by omega)]
      simp only [List.foldl_nil]

/-- Helper: the initial A* state satisfies `RowInv 0`. -/
theorem rowinv_init (h w : ℕ) (hw : 2 ≤ w) :
    RowInv h w 0 (AState.mk [(0, ((h / 2 : ℕ), w - 1))]
      [(((h / 2 : ℕ), w - 1), none)] [(((h / 2 : ℕ), w - 1), 0)]) := by
  refine ⟨⟨[], 0, ?_, by omega, by simp⟩, ?_, ?_, ?_, ?_, ?_⟩
  · simp
  · intro j hj
    have hj0 : j = 0 := by omega
    subst hj0
    simp only [Nat.sub_zero]
    exact lookupA_cons_self _ _ _
  · intro p hp
    simp only [List.mem_singleton] at hp
    rw [hp]
    left
    exact ⟨rfl, by simp only; omega, by simp only; omega⟩
  · intro j h1 h2
    omega
  · exact lookupA_cons_self _ _ _
  · simp

/-- Helper: from a `RowInv (w-1)` state the next iteration pops the
goal and stops, leaving `came_from` untouched. -/
theorem rowinv_break (h w : ℕ) (hw : 2 ≤ w) (st : AState)
    (hinv : RowInv h w (w - 1) st) (fuel : ℕ) (hf : 1 ≤ fuel) :
    (astarLoop (emptyMask h w) ((h / 2 : ℕ), 0) fuel st).came_from =
      st.came_from := by
  obtain ⟨⟨junk, pr, hfr, hpr, hjunk⟩, _, _, _, _, _⟩ := hinv
  obtain ⟨f, rfl⟩ : ∃ f, fuel = f + 1 := ⟨fuel - 1, by omega⟩
  have hpop : popMin st.frontier =
      some ((pr, ((h / 2 : ℕ), w - 1 - (w - 1))), junk) := by
    rw [hfr]
    exact popMin_last junk _ fun x hx => by
      rw [hjunk x hx]
      simp only
      omega
  simp only [astarLoop, hpop]
  rw [if_pos (show (((h / 2 : ℕ), w - 1 - (w - 1)) : Node) = ((h / 2 : ℕ), 0)
    from by rw [Nat.sub_self])]

/-- Helper: iterating the loop from any `RowInv k` state reaches the
goal with the `came_from` of some `RowInv (w-1)` state. -/
theorem rowinv_iterate (h w : ℕ) (hh : 1 ≤ h) (hw : 2 ≤ w) :
    ∀ (d k : ℕ), k + d = w - 2 → ∀ st, RowInv h w k st →
    ∀ fuel, d + 2 ≤ fuel →
    ∃ stW : AState, RowInv h w (w - 1) stW ∧
      (astarLoop (emptyMask h w) ((h / 2 : ℕ), 0) fuel st).came_from =
        stW.came_from := by
  intro d
  induction d with
  | zero =>
    intro k hkd st hinv fuel hf
    have hk : k = w - 2 := by omega
    obtain ⟨st2, hinv2, heq⟩ := rowinv_step h w k hh hw (by omega) st hinv
    obtain ⟨f, rfl⟩ : ∃ f, fuel = f + 1 := ⟨fuel - 1, by omega⟩
    rw [heq f]
    have hk2 : k + 1 = w - 1 := by omega
    rw [hk2] at hinv2
    refine ⟨st2, hinv2, ?_⟩
    exact rowinv_break h w hw st2 hinv2 f (by omega)
  | succ d ih =>
    intro k hkd st hinv fuel hf
    obtain ⟨st2, hinv2, heq⟩ := rowinv_step h w k hh hw (by omega) st hinv
    obtain ⟨f, rfl⟩ : ∃ f, fuel = f + 1 := ⟨fuel - 1, by omega⟩
    rw [heq f]
    exact ih (k + 1) (by omega) st2 hinv2 f (by omega)

/-- Helper: reconstruction along the recorded straight-row parent chain
from column `i` appends exactly `d + 1` waypoints. -/
theorem recon_chain_len (h w : ℕ) (hw : 2 ≤ w)
    (came : List (Node × Option Node))
    (hcame : ∀ j, 1 ≤ j → j ≤ w - 1 →
      lookupA came ((h / 2 : ℕ), w - 1 - j) = some (some ((h / 2 : ℕ), w - j)))
    (hstart : lookupA came ((h / 2 : ℕ), w - 1) = some none) :
    ∀ (d i : ℕ), i + d = w - 1 → ∀ fuel, d + 2 ≤ fuel → ∀ acc : List (ℕ × ℕ),
    (reconstructAux came fuel (some ((h / 2 : ℕ), i)) acc).length =
      acc.length + (d + 1) := by
  intro d
  induction d with
  | zero =>
    intro i hi fuel hf acc
    have hi2 : i = w - 1 := by omega
    subst hi2
    obtain ⟨f, rfl⟩ : ∃ f, fuel = f + 2 := ⟨fuel - 2, by omega⟩
    show (reconstructAux came (f + 1 + 1) (some ((h / 2 : ℕ), w - 1)) acc).length = _
    unfold reconstructAux
    rw [hstart]
    unfold reconstructAux
    simp
  | succ d ih =>
    intro i hi fuel hf acc
    obtain ⟨f, rfl⟩ : ∃ f, fuel = f + 1 := ⟨fuel - 1, by omega⟩
    have hj : 1 ≤ w - 1 - i ∧ w - 1 - i ≤ w - 1 := by omega
    have hlook := hcame (w - 1 - i) hj.1 hj.2
    rw [show w - 1 - (w - 1 - i) = i from by omega,
      show w - (w - 1 - i) = i + 1 from by omega] at hlook
    show (reconstructAux came (f + 1) (some ((h / 2 : ℕ), i)) acc).length = _
    unfold reconstructAux
    rw [hlook]
    dsimp only
    rw [ih (i + 1) (by omega) f (by omega) (acc ++ [(i, h / 2)])]
    simp only [List.length_append, List.length_cons, List.length_nil]
    omega

/-- Helper: popping a one-entry frontier. -/
theorem popMin_singleton (e : ℕ × Node) : popMin [e] = some (e, []) := by
  unfold popMin minEntry
  simp only [List.foldl_nil]
  show some (e, [e].erase e) = some (e, [])
  rw [List.erase_cons_head]

/-- C4 (amended): on every nonempty all-free mask, `astar` with the
default goal returns a path whose number of waypoints is the Manhattan
distance between the fixed start cell (midpoint of the right edge) and
the default goal cell (midpoint of the left edge) plus one — i.e. the
path traverses exactly Manhattan-distance unit steps. -/
theorem C4_path_length_manhattan_plus_one (h w : ℕ) (hh : 1 ≤ h) (hw : 1 ≤ w) :
    (astar (emptyMask h w) none).length =
      heuristic (astarStart (emptyMask h w))
        (astarDefaultGoal (emptyMask h w)) + 1 := by
  have hheur : heuristic ((h / 2 : ℕ), w - 1) ((h / 2 : ℕ), 0) = w - 1 := by
    unfold heuristic
    omega
  have hse : astarStart (emptyMask h w) = ((h / 2 : ℕ), w - 1) := rfl
  have hge : astarDefaultGoal (emptyMask h w) = ((h / 2 : ℕ), 0) := rfl
  rw [hse, hge, hheur]
  by_cases hw1 : w = 1
  · subst hw1
    simp only [astar, Option.getD_none, hse, hge]
    have hpos : 0 < astarFuel (emptyMask h 1) := Nat.mul_pos (by omega) (by omega)
    obtain ⟨f, hf⟩ : ∃ f, astarFuel (emptyMask h 1) = f + 1 :=
      ⟨astarFuel (emptyMask h 1) - 1, by omega⟩
    rw [hf]
    have hpop : popMin [(0, ((h / 2 : ℕ), 1 - 1))] =
        some ((0, ((h / 2 : ℕ), 1 - 1)), []) := popMin_singleton _
    simp only [astarLoop, hpop]
    rw [if_pos trivial]
    unfold reconstruct
    have hlook : lookupA [(((h / 2 : ℕ), 1 - 1), (none : Option Node))]
        ((h / 2 : ℕ), 0) = some none := lookupA_cons_self _ _ _
    simp only [List.length_cons, List.length_nil]
    unfold reconstructAux
    rw [hlook]
    unfold reconstructAux
    simp
  · have hw2 : 2 ≤ w := by omega
    have hfle : (w - 2) + 2 ≤ astarFuel (emptyMask h w) := by
      have h1 : w ≤ h * w := Nat.le_mul_of_pos_left w (by omega)
      have h2 : h * w + 2 ≤ (h * w + 2) * (h * w + 2) :=
        Nat.le_mul_of_pos_left _ (by omega)
      show (w - 2) + 2 ≤ (h * w + 2) * (h * w + 2)
      omega
    obtain ⟨stW, hinvW, hcameEq⟩ := rowinv_iterate h w hh hw2 (w - 2) 0
      (by omega)
      (AState.mk [(0, ((h / 2 : ℕ), w - 1))] [(((h / 2 : ℕ), w - 1), none)]
        [(((h / 2 : ℕ), w - 1), 0)])
      (rowinv_init h w hw2) (astarFuel (emptyMask h w)) hfle
    obtain ⟨_, _, _, hcameW, hstartW, hlenW⟩ := hinvW
    simp only [astar, Option.getD_none, hse, hge]
    have hst0 : (AState.mk [(0, ((h / 2 : ℕ), w - 1))]
        [(((h / 2 : ℕ), w - 1), none)] [(((h / 2 : ℕ), w - 1), 0)]) =
        { frontier := [(0, ((h / 2 : ℕ), w - 1))],
          came_from := [(((h / 2 : ℕ), w - 1), none)],
          cost_so_far := [(((h / 2 : ℕ), w - 1), 0)] } := rfl
    rw [hst0] at hcameEq
    unfold reconstruct
    rw [hcameEq]
    have hlen2 : (w - 1) + 2 ≤ stW.came_from.length + 1 := by omega
    have hrec := recon_chain_len h w hw2 stW.came_from hcameW hstartW (w - 1) 0
      (by omega) (stW.came_from.length + 1) hlen2 []
    simp only [List.length_reverse]
    rw [hrec]
    simp only [List.length_nil]
    omega

/-- C4 (corrected): the claim as stated fails — on the all-free 3 by 3
mask the Manhattan distance between start (1,2) and goal (1,0) is 2,
but the returned path has 3 waypoints, not 2. -/
theorem C4_counterexample_length_off_by_one :
    (astar maskFree3 none).length = 3 ∧
    heuristic (astarStart maskFree3) (astarDefaultGoal maskFree3) = 2 ∧
    (astar maskFree3 none).length ≠
      heuristic (astarStart maskFree3) (astarDefaultGoal maskFree3) := by
  refine ⟨by decide, by decide, by decide⟩

/-- Witness for C4: the amended statement instantiated on the all-free
3 by 3 mask. -/
theorem C4_witness :
    1 ≤ (3 : ℕ) ∧ 1 ≤ (3 : ℕ) ∧
    (astar (emptyMask 3 3) none).length =
      heuristic (astarStart (emptyMask 3 3))
        (astarDefaultGoal (emptyMask 3 3)) + 1 :=
  ⟨by decide, by decide,
    C4_path_length_manhattan_plus_one 3 3 (by decide) (by decide)⟩

theorem varianceLt_replicate (q : Pos3) (f : Pos3 → ℤ) (n : ℕ) (b : ℤ)
    (hb : 0 < b) (hn : 1 ≤ n) :
    varianceLt (List.replicate n q) f b = true := by
  unfold varianceLt sumBy
  simp only [List.map_replicate, List.sum_replicate, smul_eq_mul, nsmul_eq_mul,
    List.length_replicate]
  rw [decide_eq_true_eq]
  have hnz : (0 : ℤ) < (n : ℤ) := by exact_mod_cast hn
  have key : (n : ℤ) * ((n : ℤ) * (f q * f q)) - ((n : ℤ) * f q) * ((n : ℤ) * f q)
      = 0 := by ring
  nlinarith [mul_pos (mul_pos hb hnz) hnz]

/-- Helper: `is_position_stable` on a constant nonempty buffer with the
same sample again reports stable and saturates the buffer at
`buffer_size`. -/
theorem stab_replicate (q : Pos3) (bn : ℕ) (h1 : 1 ≤ bn) (h3 : bn ≤ 3) :
    is_position_stable (some q) (some q) (List.replicate bn q) =
      (true, List.replicate (min (bn + 1) 3) q) := by
  have hthr : (0 : ℤ) < stability_threshold * stability_threshold := by
    unfold stability_threshold
    norm_num
  interval_cases bn
  · have e : List.replicate 1 q ++ [q] = List.replicate 2 q := rfl
    simp only [is_position_stable, e, List.length_replicate, buffer_size]
    norm_num
    rw [varianceLt_replicate q _ 2 _ hthr (by norm_num),
      varianceLt_replicate q _ 2 _ hthr (by norm_num)]
    simp
  · have e : List.replicate 2 q ++ [q] = List.replicate 3 q := rfl
    simp only [is_position_stable, e, List.length_replicate, buffer_size]
    norm_num
    rw [varianceLt_replicate q _ 3 _ hthr (by norm_num),
      varianceLt_replicate q _ 3 _ hthr (by norm_num)]
    simp
  · have e : List.replicate 3 q ++ [q] = List.replicate 4 q := rfl
    have e2 : (List.replicate 4 q).drop 1 = List.replicate 3 q := rfl
    simp only [is_position_stable, e, List.length_replicate, buffer_size]
    norm_num [e2]
    rw [varianceLt_replicate q _ 3 _ hthr (by norm_num),
      varianceLt_replicate q _ 3 _ hthr (by norm_num)]
    simp

/-- Helper: the first frame from the initial state records the
fingertip but is not yet stable (no previous position). -/
theorem step_from_init (g : GridSystem) (hd : HandInput) (rc : ℕ × ℕ)
    (hGood : GoodHand g hd rc) (now : ℚ) :
    (process_frame g initDetectorState (some hd) now).is_confirmed = false ∧
    coreOf (process_frame g initDetectorState (some hd) now).state =
      (some (posOf hd), none, false, []) := by
  obtain ⟨h1, h2, h3⟩ := hGood
  simp only [posOf]
  have hstab : is_position_stable none (some (⟨hd.x, hd.y, hd.z⟩ : Pos3)) []
      = (false, []) := rfl
  simp only [process_frame, initDetectorState, hstab, h1, h2, h3, coreOf,
    Bool.and_false, Bool.false_and, Bool.and_true, Bool.true_and,
    Bool.not_false, if_false]
  simp

/-- Helper: the second frame appends to the still-too-short buffer and
is not yet stable. -/
theorem step_grow (g : GridSystem) (hd : HandInput) (rc : ℕ × ℕ)
    (hGood : GoodHand g hd rc) (s : DetectorState) (now : ℚ)
    (hl : s.last_position = some (posOf hd))
    (hb : s.position_buffer = []) :
    (process_frame g s (some hd) now).is_confirmed = false ∧
    coreOf (process_frame g s (some hd) now).state =
      (some (posOf hd), none, false, [posOf hd]) := by
  obtain ⟨h1, h2, h3⟩ := hGood
  simp only [posOf] at hl ⊢
  have hstab : is_position_stable (some (⟨hd.x, hd.y, hd.z⟩ : Pos3))
      (some (⟨hd.x, hd.y, hd.z⟩ : Pos3)) [] = (false, [⟨hd.x, hd.y, hd.z⟩]) := rfl
  simp only [process_frame, hl, hb, hstab, h1, h2, h3, coreOf,
    Bool.and_false, Bool.false_and, Bool.and_true, Bool.true_and,
    Bool.not_false, if_false]
  simp

/-- Helper: a stable frame with no running timer starts the dwell timer
at the current frame time. -/
theorem step_start (g : GridSystem) (hd : HandInput) (rc : ℕ × ℕ)
    (hGood : GoodHand g hd rc) (s : DetectorState) (now : ℚ) (bn : ℕ)
    (hl : s.last_position = some (posOf hd))
    (hst : s.start_time = none)
    (hc : s.position_confirmed = false)
    (hb : s.position_buffer = List.replicate bn (posOf hd))
    (hbn1 : 1 ≤ bn) (hbn3 : bn ≤ 3) :
    (process_frame g s (some hd) now).is_confirmed = false ∧
    coreOf (process_frame g s (some hd) now).state =
      (some (posOf hd), some now, false, List.replicate (min (bn + 1) 3) (posOf hd)) := by
  obtain ⟨h1, h2, h3⟩ := hGood
  simp only [posOf] at hl hb ⊢
  have hstab := stab_replicate (⟨hd.x, hd.y, hd.z⟩ : Pos3) bn hbn1 hbn3
  have hdec : ¬ (confirmation_duration ≤ now - now) := by
    rw [sub_self]
    unfold confirmation_duration
    norm_num
  simp only [process_frame, hl, hb, hst, hc, hstab, h1, h2, h3, coreOf,
    Option.getD_none, decide_eq_false hdec,
    Bool.and_false, Bool.false_and, Bool.and_true, Bool.true_and,
    Bool.not_false, if_false]
  simp

/-- Helper: a stable frame before the confirmation duration elapses
keeps the timer and confirms nothing. -/
theorem step_tick (g : GridSystem) (hd : HandInput) (rc : ℕ × ℕ)
    (hGood : GoodHand g hd rc) (s : DetectorState) (now τ : ℚ) (bn : ℕ)
    (hl : s.last_position = some (posOf hd))
    (hst : s.start_time = some τ)
    (hc : s.position_confirmed = false)
    (hb : s.position_buffer = List.replicate bn (posOf hd))
    (hbn1 : 1 ≤ bn) (hbn3 : bn ≤ 3)
    (hlt : now - τ < 1) :
    (process_frame g s (some hd) now).is_confirmed = false ∧
    coreOf (process_frame g s (some hd) now).state =
      (some (posOf hd), some τ, false, List.replicate (min (bn + 1) 3) (posOf hd)) := by
  obtain ⟨h1, h2, h3⟩ := hGood
  simp only [posOf] at hl hb ⊢
  have hstab := stab_replicate (⟨hd.x, hd.y, hd.z⟩ : Pos3) bn hbn1 hbn3
  have hdec : ¬ (confirmation_duration ≤ now - τ) := by
    unfold confirmation_duration
    linarith
  simp only [process_frame, hl, hb, hst, hc, hstab, h1, h2, h3, coreOf,
    Option.getD_some, decide_eq_false hdec,
    Bool.and_false, Bool.false_and, Bool.and_true, Bool.true_and,
    Bool.not_false, if_false]
  simp

/-- Helper: a stable frame at or past the confirmation duration emits a
confirmation and clears the timer and flag (lines 342–350, 388–390). -/
theorem step_confirm (g : GridSystem) (hd : HandInput) (rc : ℕ × ℕ)
    (hGood : GoodHand g hd rc) (s : DetectorState) (now τ : ℚ) (bn : ℕ)
    (hl : s.last_position = some (posOf hd))
    (hst : s.start_time = some τ)
    (hc : s.position_confirmed = false)
    (hb : s.position_buffer = List.replicate bn (posOf hd))
    (hbn1 : 1 ≤ bn) (hbn3 : bn ≤ 3)
    (hge : 1 ≤ now - τ) :
    (process_frame g s (some hd) now).is_confirmed = true ∧
    coreOf (process_frame g s (some hd) now).state =
      (some (posOf hd), none, false, List.replicate (min (bn + 1) 3) (posOf hd)) := by
  obtain ⟨h1, h2, h3⟩ := hGood
  simp only [posOf] at hl hb ⊢
  have hstab := stab_replicate (⟨hd.x, hd.y, hd.z⟩ : Pos3) bn hbn1 hbn3
  have hdec : confirmation_duration ≤ now - τ := by
    unfold confirmation_duration
    linarith
  simp only [process_frame, hl, hb, hst, hc, hstab, h1, h2, h3, coreOf,
    Option.getD_some, decide_eq_true hdec,
    Bool.and_false, Bool.false_and, Bool.and_true, Bool.true_and,
    Bool.not_false, if_true]
  simp

/-- Helper: a frame with the pointing pose dropped resets the timer but
still updates the stability buffer (line 318 runs unconditionally). -/
theorem step_interrupt (g : GridSystem) (hd hdOff : HandInput) (rc : ℕ × ℕ)
    (hGood : GoodHand g hd rc)
    (hOff : hdOff = { hd with indexExtended := false })
    (s : DetectorState) (now : ℚ) (bn : ℕ)
    (hl : s.last_position = some (posOf hd))
    (hb : s.position_buffer = List.replicate bn (posOf hd))
    (hbn1 : 1 ≤ bn) (hbn3 : bn ≤ 3) :
    (process_frame g s (some hdOff) now).is_confirmed = false ∧
    coreOf (process_frame g s (some hdOff) now).state =
      (some (posOf hd), none, false, List.replicate (min (bn + 1) 3) (posOf hd)) := by
  obtain ⟨h1, h2, h3⟩ := hGood
  subst hOff
  simp only [posOf] at hl hb ⊢
  have hstab := stab_replicate (⟨hd.x, hd.y, hd.z⟩ : Pos3) bn hbn1 hbn3
  simp only [process_frame, hl, hb, hstab, coreOf,
    Bool.and_false, Bool.false_and, Bool.and_true, Bool.true_and,
    Bool.not_false, if_false]
  simp

/-- Helper: running the detector over concatenated frame lists. -/
theorem run_detector_append (g : GridSystem) (s : DetectorState)
    (l1 l2 : List (Option HandInput × ℚ)) :
    run_detector g s (l1 ++ l2) =
      ((run_detector g (run_detector g s l1).1 l2).1,
        (run_detector g s l1).2 ++ (run_detector g (run_detector g s l1).1 l2).2) := by
  induction l1 generalizing s with
  | nil => simp [run_detector]
  | cons f fs ih =>
    simp only [List.cons_append, run_detector, List.append_eq]
    rw [ih]

/-- Helper: confirmation counts add over concatenation. -/
theorem countConfirms_append (l1 l2 : List FrameResult) :
    countConfirms (l1 ++ l2) = countConfirms l1 + countConfirms l2 := by
  unfold countConfirms
  rw [List.filter_append, List.length_append]

/-- Helper: confirmation count of a cons. -/
theorem countConfirms_cons (r : FrameResult) (l : List FrameResult) :
    countConfirms (r :: l) =
      (if r.is_confirmed then 1 else 0) + countConfirms l := by
  unfold countConfirms
  rw [List.filter_cons]
  split_ifs <;> simp [Nat.add_comm]

/-- Helper: peeling the first frame off a frame window. -/
theorem framesFrom_succ (hd : HandInput) (t : ℕ → ℚ) (a m : ℕ) :
    framesFrom hd t a (m + 1) =
      (some hd, t a) :: framesFrom hd t (a + 1) m := by
  unfold framesFrom
  rw [List.range_succ_eq_map]
  simp only [List.map_cons, List.map_map, Nat.add_zero]
  congr 1
  apply List.map_congr_left
  intro i _
  simp only [Function.comp]
  rw [show a + (i + 1) = a + 1 + i from by omega]

/-- Helper: splitting a frame window. -/
theorem framesFrom_add (hd : HandInput) (t : ℕ → ℚ) (a m n : ℕ) :
    framesFrom hd t a (m + n) =
      framesFrom hd t a m ++ framesFrom hd t (a + m) n := by
  unfold framesFrom
  rw [List.range_add, List.map_append, List.map_map]
  congr 1
  apply List.map_congr_left
  intro i _
  simp only [Function.comp]
  rw [show a + (m + i) = a + m + i from by omega]

/-- Helper: a frame window starting at 0 is `framesConst`. -/
theorem framesFrom_zero (hd : HandInput) (t : ℕ → ℚ) (n : ℕ) :
    framesFrom hd t 0 n = framesConst hd t n := by
  unfold framesFrom framesConst
  apply List.map_congr_left
  intro i _
  rw [Nat.zero_add]

/-- Helper: while every frame time stays within the confirmation
duration of the running timer, the detector confirms nothing and keeps
the timer, with a saturated stability buffer. -/
theorem run_tick_range (g : GridSystem) (hd : HandInput) (rc : ℕ × ℕ)
    (hGood : GoodHand g hd rc) (t : ℕ → ℚ) (τ : ℚ) (m : ℕ) :
    ∀ (a : ℕ) (s : DetectorState) (bn : ℕ),
    coreOf s = (some (posOf hd), some τ, false, List.replicate bn (posOf hd)) →
    2 ≤ bn → bn ≤ 3 →
    (∀ i, i < m → t (a + i) - τ < 1) →
    countConfirms (run_detector g s (framesFrom hd t a m)).2 = 0 ∧
    ∃ bn', 2 ≤ bn' ∧ bn' ≤ 3 ∧
      coreOf (run_detector g s (framesFrom hd t a m)).1 =
        (some (posOf hd), some τ, false, List.replicate bn' (posOf hd)) := by
  induction m with
  | zero =>
    intro a s bn hcore h2 h3 _
    refine ⟨rfl, bn, h2, h3, ?_⟩
    exact hcore
  | succ m ih =>
    intro a s bn hcore h2 h3 hall
    simp only [coreOf, Prod.mk.injEq] at hcore
    obtain ⟨hl, hst, hc, hb⟩ := hcore
    have hstep := step_tick g hd rc hGood s (t a) τ bn hl hst hc hb
      (by omega) h3 (by have := hall 0 (by omega); simpa using this)
    obtain ⟨hcf, hcore'⟩ := hstep
    rw [show min (bn + 1) 3 = 3 from by omega] at hcore'
    rw [framesFrom_succ]
    simp only [run_detector]
    have hall' : ∀ i, i < m → t (a + 1 + i) - τ < 1 := by
      intro i hi
      have := hall (i + 1) (by omega)
      rwa [show a + (i + 1) = a + 1 + i from by omega] at this
    obtain ⟨hcnt, bn', hb1, hb2, hfin⟩ :=
      ih (a + 1) (process_frame g s (some hd) (t a)).state 3 hcore'
        (by omega) (by omega) hall'
    refine ⟨?_, bn', hb1, hb2, hfin⟩
    rw [countConfirms_cons, hcf, hcnt]
    simp

/-- Helper: a window whose last frame crosses the confirmation duration
emits exactly one confirmation and leaves the engine re-armed. -/
theorem run_timed_cross (g : GridSystem) (hd : HandInput) (rc : ℕ × ℕ)
    (hGood : GoodHand g hd rc) (t : ℕ → ℚ) (τ : ℚ) (a d : ℕ)
    (s : DetectorState) (bn : ℕ)
    (hcore : coreOf s = (some (posOf hd), some τ, false, List.replicate bn (posOf hd)))
    (h2 : 2 ≤ bn) (h3 : bn ≤ 3)
    (htick : ∀ i, i < d → t (a + i) - τ < 1)
    (hcross : 1 ≤ t (a + d) - τ) :
    countConfirms (run_detector g s (framesFrom hd t a (d + 1))).2 = 1 ∧
    coreOf (run_detector g s (framesFrom hd t a (d + 1))).1 =
      (some (posOf hd), none, false, List.replicate 3 (posOf hd)) := by
  rw [framesFrom_add hd t a d 1, run_detector_append]
  obtain ⟨hcnt1, bn', hb1, hb2, hfin⟩ :=
    run_tick_range g hd rc hGood t τ d a s bn hcore h2 h3 htick
  simp only [coreOf, Prod.mk.injEq] at hfin
  obtain ⟨hl, hst, hc, hb⟩ := hfin
  have hone : framesFrom hd t (a + d) 1 = [(some hd, t (a + d))] := by
    rw [framesFrom_succ]
    rfl
  rw [hone]
  simp only [run_detector]
  obtain ⟨hcf, hcore'⟩ := step_confirm g hd rc hGood
    (run_detector g s (framesFrom hd t a d)).1 (t (a + d)) τ bn'
    hl hst hc hb (by omega) hb2 hcross
  rw [show min (bn' + 1) 3 = 3 from by omega] at hcore'
  constructor
  · rw [countConfirms_append, hcnt1, countConfirms_cons, hcf]
    rfl
  · exact hcore'

/-- Helper: from a re-armed state, a window that restarts the timer but
never crosses the duration confirms nothing. -/
theorem run_rearm_nocross (g : GridSystem) (hd : HandInput) (rc : ℕ × ℕ)
    (hGood : GoodHand g hd rc) (t : ℕ → ℚ) (a m : ℕ)
    (s : DetectorState)
    (hcore : coreOf s = (some (posOf hd), none, false, List.replicate 3 (posOf hd)))
    (hall : ∀ i, 1 ≤ i → i < m → t (a + i) - t a < 1) :
    countConfirms (run_detector g s (framesFrom hd t a m)).2 = 0 := by
  match m with
  | 0 => rfl
  | m + 1 =>
    simp only [coreOf, Prod.mk.injEq] at hcore
    obtain ⟨hl, hst, hc, hb⟩ := hcore
    rw [framesFrom_succ]
    simp only [run_detector]
    obtain ⟨hcf, hcore'⟩ := step_start g hd rc hGood s (t a) 3 hl hst hc hb
      (by omega) (by omega)
    rw [show min (3 + 1) 3 = 3 from by omega] at hcore'
    have hall' : ∀ i, i < m → t (a + 1 + i) - t a < 1 := by
      intro i hi
      have := hall (i + 1) (by omega) (by omega)
      rwa [show a + (i + 1) = a + 1 + i from by omega] at this
    obtain ⟨hcnt, _, _, _, _⟩ :=
      run_tick_range g hd rc hGood t (t a) m (a + 1)
        (process_frame g s (some hd) (t a)).state 3 hcore' (by omega) (by omega) hall'
    rw [countConfirms_cons, hcf, hcnt]
    simp

/-- Helper: from a re-armed state, a window that restarts the timer and
then crosses the duration confirms exactly once more. -/
theorem run_rearm_cross (g : GridSystem) (hd : HandInput) (rc : ℕ × ℕ)
    (hGood : GoodHand g hd rc) (t : ℕ → ℚ) (a d : ℕ)
    (s : DetectorState)
    (hcore : coreOf s = (some (posOf hd), none, false, List.replicate 3 (posOf hd)))
    (htick : ∀ i, 1 ≤ i → i ≤ d → t (a + i) - t a < 1)
    (hcross : 1 ≤ t (a + d + 1) - t a) :
    countConfirms (run_detector g s (framesFrom hd t a (d + 2))).2 = 1 ∧
    coreOf (run_detector g s (framesFrom hd t a (d + 2))).1 =
      (some (posOf hd), none, false, List.replicate 3 (posOf hd)) := by
  simp only [coreOf, Prod.mk.injEq] at hcore
  obtain ⟨hl, hst, hc, hb⟩ := hcore
  rw [show d + 2 = (d + 1) + 1 from rfl, framesFrom_succ]
  simp only [run_detector]
  obtain ⟨hcf, hcore'⟩ := step_start g hd rc hGood s (t a) 3 hl hst hc hb
    (by omega) (by omega)
  rw [show min (3 + 1) 3 = 3 from by omega] at hcore'
  have htick' : ∀ i, i < d → t (a + 1 + i) - t a < 1 := by
    intro i hi
    have := htick (i + 1) (by omega) (by omega)
    rwa [show a + (i + 1) = a + 1 + i from by omega] at this
  have hcross' : 1 ≤ t (a + 1 + d) - t a := by
    rwa [show a + 1 + d = a + d + 1 from by omega]
  obtain ⟨hcnt, hfin⟩ := run_timed_cross g hd rc hGood t (t a) (a + 1) d
    (process_frame g s (some hd) (t a)).state 3 hcore' (by omega) (by omega)
    htick' hcross'
  constructor
  · rw [countConfirms_cons, hcf, hcnt]
    simp
  · exact hfin

/-- Helper: the first three constant frames from the initial state:
buffer fills, stability is reached at frame 2 and the timer starts
there. -/
theorem run_first3 (g : GridSystem) (hd : HandInput) (rc : ℕ × ℕ)
    (hGood : GoodHand g hd rc) (t : ℕ → ℚ) :
    countConfirms (run_detector g initDetectorState (framesFrom hd t 0 3)).2 = 0 ∧
    coreOf (run_detector g initDetectorState (framesFrom hd t 0 3)).1 =
      (some (posOf hd), some (t 2), false, List.replicate 2 (posOf hd)) := by
  have hfr : framesFrom hd t 0 3 =
      [(some hd, t 0), (some hd, t 1), (some hd, t 2)] := rfl
  rw [hfr]
  simp only [run_detector]
  obtain ⟨hcf0, hcore0⟩ := step_from_init g hd rc hGood (t 0)
  simp only [coreOf, Prod.mk.injEq] at hcore0
  obtain ⟨hl0, hst0, hc0, hb0⟩ := hcore0
  obtain ⟨hcf1, hcore1⟩ := step_grow g hd rc hGood
    (process_frame g initDetectorState (some hd) (t 0)).state (t 1) hl0 hb0
  simp only [coreOf, Prod.mk.injEq] at hcore1
  obtain ⟨hl1, hst1, hc1, hb1⟩ := hcore1
  have hb1' : (process_frame g (process_frame g initDetectorState (some hd) (t 0)).state
      (some hd) (t 1)).state.position_buffer = List.replicate 1 (posOf hd) := by
    rw [hb1]
    rfl
  obtain ⟨hcf2, hcore2⟩ := step_start g hd rc hGood
    (process_frame g (process_frame g initDetectorState (some hd) (t 0)).state
      (some hd) (t 1)).state (t 2) 1 hl1 hst1 hc1 hb1' (by omega) (by omega)
  rw [show min (1 + 1) 3 = 2 from by omega] at hcore2
  constructor
  · rw [countConfirms_cons, hcf0, countConfirms_cons, hcf1,
      countConfirms_cons, hcf2]
    rfl
  · exact hcore2

/-- Helper: a constant frame list with one substituted frame splits
around that frame. -/
theorem framesConstExcept_decomp (hd hdOff : HandInput) (t : ℕ → ℚ) (j n : ℕ)
    (hj : j < n) :
    framesConstExcept hd hdOff j t n =
      framesFrom hd t 0 j ++
        (some hdOff, t j) :: framesFrom hd t (j + 1) (n - j - 1) := by
  obtain ⟨m, rfl⟩ : ∃ m, n = j + 1 + m := ⟨n - j - 1, by omega⟩
  rw [show j + 1 + m - j - 1 = m from by omega]
  unfold framesConstExcept framesFrom
  rw [List.range_add, List.range_succ, List.map_append, List.map_append,
    List.map_map, List.append_assoc]
  congr 1
  · apply List.map_congr_left
    intro i hi
    rw [List.mem_range] at hi
    rw [if_neg (by omega), Nat.zero_add]
  · rw [List.map_singleton, if_pos rfl, List.singleton_append]
    congr 1
    apply List.map_congr_left
    intro i _
    simp only [Function.comp]
    rw [if_neg (by omega)]

/-- Helper: a full uninterrupted dwell from the initial state emits
exactly one confirmation and re-arms the engine. -/
theorem dwell_from_init (g : GridSystem) (hd : HandInput) (rc : ℕ × ℕ)
    (hGood : GoodHand g hd rc) (t : ℕ → ℚ) (k : ℕ)
    (hk : 3 ≤ k) (hcross : 1 ≤ t k - t 2)
    (hbefore : ∀ i, 3 ≤ i → i < k → t i - t 2 < 1) :
    countConfirms (run_detector g initDetectorState (framesFrom hd t 0 (k + 1))).2 = 1 ∧
    coreOf (run_detector g initDetectorState (framesFrom hd t 0 (k + 1))).1 =
      (some (posOf hd), none, false, List.replicate 3 (posOf hd)) := by
  rw [show k + 1 = 3 + (k - 2) from by omega, framesFrom_add, run_detector_append]
  obtain ⟨hcnt0, hcore0⟩ := run_first3 g hd rc hGood t
  have htick : ∀ i, i < k - 3 → t (3 + i) - t 2 < 1 := by
    intro i hi
    exact hbefore (3 + i) (by omega) (by omega)
  have hcross' : 1 ≤ t (3 + (k - 3)) - t 2 := by
    rwa [show 3 + (k - 3) = k from by omega]
  have hkk : k - 2 = (k - 3) + 1 := by omega
  rw [hkk]
  obtain ⟨hcnt1, hcore1⟩ := run_timed_cross g hd rc hGood t (t 2) 3 (k - 3)
    (run_detector g initDetectorState (framesFrom hd t 0 3)).1 2 hcore0
    (by omega) (by omega) htick hcross'
  constructor
  · rw [countConfirms_append, hcnt0, hcnt1]
  · exact hcore1

/-- Helper: the per-frame results of a run starting with one frame. -/
theorem run_detector_cons_snd (g : GridSystem) (s : DetectorState)
    (o : Option HandInput) (q : ℚ) (fs : List (Option HandInput × ℚ)) :
    (run_detector g s ((o, q) :: fs)).2 =
      process_frame g s o q ::
        (run_detector g (process_frame g s o q).state fs).2 := rfl

/-- Helper: extending the run past a second duration crossing yields
exactly two confirmations. -/
theorem dwell_twice (g : GridSystem) (hd : HandInput) (rc : ℕ × ℕ)
    (hGood : GoodHand g hd rc) (t : ℕ → ℚ) (k d : ℕ)
    (hk : 3 ≤ k) (hcross : 1 ≤ t k - t 2)
    (hbefore : ∀ i, 3 ≤ i → i < k → t i - t 2 < 1)
    (hcross2 : 1 ≤ t (k + d + 2) - t (k + 1))
    (htick2 : ∀ i, 1 ≤ i → i ≤ d → t (k + 1 + i) - t (k + 1) < 1) :
    countConfirms (run_detector g initDetectorState
      (framesFrom hd t 0 (k + d + 3))).2 = 2 := by
  rw [show k + d + 3 = (k + 1) + (d + 2) from by omega, framesFrom_add,
    Nat.zero_add, run_detector_append]
  obtain ⟨hc1, hcore1⟩ := dwell_from_init g hd rc hGood t k hk hcross hbefore
  have hcross2' : 1 ≤ t (k + 1 + d + 1) - t (k + 1) := by
    rwa [show k + 1 + d + 1 = k + d + 2 from by omega]
  obtain ⟨hc2, _⟩ := run_rearm_cross g hd rc hGood t (k + 1) d
    (run_detector g initDetectorState (framesFrom hd t 0 (k + 1))).1
    hcore1 htick2 hcross2'
  rw [countConfirms_append, hc1, hc2]

/-- Helper: dropping the pointing pose at one frame mid-dwell resets
the timer, and the attempt emits no confirmation. -/
theorem interrupted_dwell (g : GridSystem) (hd hdOff : HandInput) (rc : ℕ × ℕ)
    (hGood : GoodHand g hd rc)
    (hOff : hdOff = { hd with indexExtended := false })
    (t : ℕ → ℚ) (k j : ℕ)
    (_hk : 3 ≤ k) (hj3 : 3 ≤ j) (hjk : j ≤ k)
    (hbefore : ∀ i, 3 ≤ i → i < k → t i - t 2 < 1)
    (hafter : ∀ i, j + 2 ≤ i → i ≤ k → t i - t (j + 1) < 1) :
    countConfirms (run_detector g initDetectorState
      (framesConstExcept hd hdOff j t (k + 1))).2 = 0 := by
  rw [framesConstExcept_decomp hd hdOff t j (k + 1) (by omega),
    show k + 1 - j - 1 = k - j from by omega,
    run_detector_append, countConfirms_append]
  have hsplitj : framesFrom hd t 0 j = framesFrom hd t 0 3 ++ framesFrom hd t 3 (j - 3) := by
    rw [← framesFrom_add]
    congr 1
    omega
  rw [hsplitj, run_detector_append, countConfirms_append]
  obtain ⟨hcnt0, hcore0⟩ := run_first3 g hd rc hGood t
  have hallj : ∀ i, i < j - 3 → t (3 + i) - t 2 < 1 := by
    intro i hi
    exact hbefore (3 + i) (by omega) (by omega)
  obtain ⟨hcntA, bn', hb1, hb2, hcoreA⟩ := run_tick_range g hd rc hGood t (t 2)
    (j - 3) 3 (run_detector g initDetectorState (framesFrom hd t 0 3)).1 2
    hcore0 (by omega) (by omega) hallj
  rw [hcnt0, hcntA]
  simp only [coreOf, Prod.mk.injEq] at hcoreA
  obtain ⟨hl, hst, hc, hb⟩ := hcoreA
  rw [run_detector_cons_snd]
  obtain ⟨hcf, hcore'⟩ := step_interrupt g hd hdOff rc hGood hOff
    (run_detector g
      (run_detector g initDetectorState (framesFrom hd t 0 3)).1
      (framesFrom hd t 3 (j - 3))).1 (t j) bn' hl hb (by omega) hb2
  rw [show min (bn' + 1) 3 = 3 from by omega] at hcore'
  have hall' : ∀ i, 1 ≤ i → i < k - j → t (j + 1 + i) - t (j + 1) < 1 := by
    intro i h1 h2
    exact hafter (j + 1 + i) (by omega) (by omega)
  have htail := run_rearm_nocross g hd rc hGood t (j + 1) (k - j) _ hcore' hall'
  rw [countConfirms_cons, hcf, htail]
  simp

/-- C2: over any grid, for a hand held in pointing pose at a fixed pixel
over an unoccupied cell, with the stability timer first crossing the
1-second confirmation duration at frame `k`, the run of `process_frame`
over frames `0..k` emits exactly one confirmation, and afterwards the
engine is re-armed rather than idle (fingertip and full stability
buffer retained, timer and confirmed flag cleared), so that a longer
run containing a second crossing confirms exactly twice; while the same
dwell with the pointing pose interrupted at a single frame `j` emits no
confirmation at all. -/
theorem C2_dwell_confirmation (g : GridSystem) (hd hdOff : HandInput)
    (rc : ℕ × ℕ) (t : ℕ → ℚ) (k d j : ℕ)
    (hGood : GoodHand g hd rc)
    (hOff : hdOff = { hd with indexExtended := false })
    (hk : 3 ≤ k)
    (hcross : 1 ≤ t k - t 2)
    (hbefore : ∀ i, 3 ≤ i → i < k → t i - t 2 < 1)
    (hcross2 : 1 ≤ t (k + d + 2) - t (k + 1))
    (htick2 : ∀ i, 1 ≤ i → i ≤ d → t (k + 1 + i) - t (k + 1) < 1)
    (hj3 : 3 ≤ j) (hjk : j ≤ k)
    (hafter : ∀ i, j + 2 ≤ i → i ≤ k → t i - t (j + 1) < 1) :
    countConfirms (run_detector g initDetectorState
      (framesConst hd t (k + 1))).2 = 1 ∧
    coreOf (run_detector g initDetectorState (framesConst hd t (k + 1))).1 =
      (some (posOf hd), none, false, List.replicate 3 (posOf hd)) ∧
    countConfirms (run_detector g initDetectorState
      (framesConst hd t (k + d + 3))).2 = 2 ∧
    countConfirms (run_detector g initDetectorState
      (framesConstExcept hd hdOff j t (k + 1))).2 = 0 := by
  obtain ⟨hc1, hcore1⟩ := dwell_from_init g hd rc hGood t k hk hcross hbefore
  rw [framesFrom_zero] at hc1 hcore1
  refine ⟨hc1, hcore1, ?_, ?_⟩
  · have h2 := dwell_twice g hd rc hGood t k d hk hcross hbefore hcross2 htick2
    rwa [framesFrom_zero] at h2
  · exact interrupted_dwell g hd hdOff rc hGood hOff t k j hk hj3 hjk
      hbefore hafter

/-- Helper: with one frame per second, frame 3 crosses the 1-second
duration counted from frame 2. -/
theorem tlin_c32 : (1 : ℚ) ≤ tlin 3 - tlin 2 := by
  norm_num [tlin]

/-- Helper: with one frame per second, frame 5 crosses the 1-second
duration counted from frame 4. -/
theorem tlin_c54 : (1 : ℚ) ≤ tlin (3 + 0 + 2) - tlin (3 + 1) := by
  norm_num [tlin]

/-- Witness for C2: grid with all cells free, fingertip fixed at pixel
(5, 5) in pointing pose, one frame per second, crossing at frame 3. -/
theorem C2_witness :
    GoodHand gridAllFree handP (0, 0) ∧
    handA = { handP with indexExtended := false } ∧
    (1 : ℚ) ≤ tlin 3 - tlin 2 ∧
    (1 : ℚ) ≤ tlin (3 + 0 + 2) - tlin (3 + 1) ∧
    countConfirms (run_detector gridAllFree initDetectorState
      (framesConst handP tlin 4)).2 = 1 ∧
    coreOf (run_detector gridAllFree initDetectorState
      (framesConst handP tlin 4)).1 =
      (some (posOf handP), none, false, List.replicate 3 (posOf handP)) ∧
    countConfirms (run_detector gridAllFree initDetectorState
      (framesConst handP tlin 6)).2 = 2 ∧
    countConfirms (run_detector gridAllFree initDetectorState
      (framesConstExcept handP handA 3 tlin 4)).2 = 0 := by
  have main := C2_dwell_confirmation gridAllFree handP handA (0, 0) tlin 3 0 3
    (by decide) (by decide) (by decide) tlin_c32
    (by intro i h1 h2; omega) tlin_c54 (by intro i h1 h2; omega)
    (by decide) (by decide) (by intro i h1 h2; omega)
  exact ⟨by decide, by decide, tlin_c32, tlin_c54,
    main.1, main.2.1, main.2.2.1, main.2.2.2⟩
